import Mathlib

/-!
Shallow embedding of the clicalc core (lexer.rs, parser.rs, evaluation.rs).

Modelling conventions:

* Rust `f64` values are modelled by `FVal`: an exact rational (`Q`)
  together with the IEEE special values `+inf`, `-inf` and `nan`.  Finite
  arithmetic is exact (no rounding, no overflow of intermediate results);
  the special values follow the IEEE rules that the claims exercise
  (`x / 0`, `ln 0`, `sqrt (-1)`, ...).  Conversion of a decimal literal to
  `f64` keeps the exact decimal value but overflows to `+inf` when the
  magnitude reaches `2 ^ 1024`, which is how Rust's `str::parse::<f64>`
  behaves on inputs such as `"1e999"`.  The model has a single zero (no
  `-0.0`); no claim distinguishes the two zeros.
* `Q` is a hand-rolled exact rational type (normalised numerator /
  denominator, gcd computed by a fueled Euclid) rather than Mathlib's `ℚ`,
  so that every arithmetic step reduces inside the kernel and concrete
  runs of the interpreter can be settled by `decide` / `rfl`.
* The irrational magnitudes of the transcendental library calls
  (`ln`, `exp`, `cos`, ...) are not computed by the model: a `RealFuns`
  record supplies the finite value returned inside the function's domain,
  and every theorem holds for an arbitrary such record.  The domain logic
  (which arguments give a finite result, which give `nan` or an infinity)
  is part of the model itself, mirroring IEEE semantics of the Rust calls.
* Rust strings are modelled as `List Char`.  The one place where byte-level
  string slicing matters (`Lexer::skip_whitespace` slices `&text[1..]`,
  which panics when the leading whitespace character is more than one byte
  of UTF-8) is modelled by `Failure.panicked`.
* `Result<T, Error>` is modelled by `Except Failure`; a Rust `panic!` /
  `expect` failure is the distinguished constructor `Failure.panicked`,
  kept separate from ordinary `Error` values (`Failure.error`).
* The recursive-descent parser is modelled with an explicit fuel parameter
  (the Rust code recurses on the shrinking input); `Failure.outOfFuel` is a
  modelling device only, and the driver `parse` supplies fuel that is far
  larger than the recursion depth reachable on its input.
-/

set_option maxRecDepth 8000

namespace Clicalc

/-- Fueled Euclidean algorithm; with fuel `b + 1` it computes `gcd a b`
(the second argument strictly decreases at every step). -/
def gcdF : Nat → Nat → Nat → Nat
  | 0, a, _ => a
  | _ + 1, a, 0 => a
  | f + 1, a, Nat.succ b => gcdF f (b + 1) (a % (b + 1))

/-- Greatest common divisor, via `gcdF` with sufficient fuel. -/
def ngcd (a b : Nat) : Nat := gcdF (b + 1) a b

/-- Exact rational numbers with executable arithmetic: numerator and
positive denominator, kept in lowest terms by `mkQ`. -/
structure Q where
  num : Int
  den : Nat
deriving DecidableEq, Repr

/-- Build a `Q` in lowest terms from a numerator and a (positive)
denominator. -/
def mkQ (n : Int) (d : Nat) : Q :=
  let g := ngcd n.natAbs d
  if g = 0 then ⟨0, 1⟩ else ⟨n.tdiv g, d / g⟩

instance (n : Nat) : OfNat Q n := ⟨⟨n, 1⟩⟩

def Q.neg (x : Q) : Q := ⟨-x.num, x.den⟩

instance : Neg Q := ⟨Q.neg⟩

def Q.add (x y : Q) : Q := mkQ (x.num * y.den + y.num * x.den) (x.den * y.den)

def Q.sub (x y : Q) : Q := Q.add x (Q.neg y)

def Q.mul (x y : Q) : Q := mkQ (x.num * y.num) (x.den * y.den)

/-- Reciprocal (callers never apply it to zero). -/
def Q.inv (x : Q) : Q :=
  if x.num < 0 then ⟨-(x.den : Int), x.num.natAbs⟩ else ⟨(x.den : Int), x.num.natAbs⟩

def Q.div (x y : Q) : Q := Q.mul x (Q.inv y)

instance : Add Q := ⟨Q.add⟩
instance : Sub Q := ⟨Q.sub⟩
instance : Mul Q := ⟨Q.mul⟩
instance : Div Q := ⟨Q.div⟩

instance : LT Q := ⟨fun x y => x.num * y.den < y.num * x.den⟩
instance : LE Q := ⟨fun x y => x.num * y.den ≤ y.num * x.den⟩

instance (x y : Q) : Decidable (x < y) := by unfold instLTQ; exact Int.decLt _ _
instance (x y : Q) : Decidable (x ≤ y) := by unfold instLEQ; exact Int.decLe _ _

def Q.abs (x : Q) : Q := if x.num < 0 then Q.neg x else x

def Q.min (x y : Q) : Q := if x ≤ y then x else y

def Q.max (x y : Q) : Q := if x ≤ y then y else x

def Q.npow (x : Q) (n : Nat) : Q := ⟨Int.pow x.num n, Nat.pow x.den n⟩

/-- Integer powers (negative exponents via the reciprocal; callers never
take a negative power of zero). -/
def Q.zpow (x : Q) : Int → Q
  | .ofNat k => Q.npow x k
  | .negSucc k => Q.inv (Q.npow x (k + 1))

/-- Model of an `f64` value: exact rational, infinities, or NaN. -/
inductive FVal where
  | num (q : Q)
  | inf (neg : Bool)
  | nan
deriving DecidableEq, Repr

/-- `f64::is_finite`. -/
def FVal.isFinite : FVal → Bool
  | .num _ => true
  | _ => false

/-- Unary negation on `f64`. -/
def fneg : FVal → FVal
  | .num q => .num (-q)
  | .inf b => .inf (!b)
  | .nan => .nan

/-- IEEE addition (`+` on `f64`); finite addition is exact. -/
def fadd : FVal → FVal → FVal
  | .num a, .num b => .num (a + b)
  | .num _, .inf b => .inf b
  | .inf b, .num _ => .inf b
  | .inf b, .inf c => if b = c then .inf b else .nan
  | _, _ => .nan

/-- IEEE subtraction (`-` on `f64`). -/
def fsub (x y : FVal) : FVal := fadd x (fneg y)

/-- IEEE multiplication (`*` on `f64`); finite multiplication is exact. -/
def fmul : FVal → FVal → FVal
  | .num a, .num b => .num (a * b)
  | .num a, .inf b => if a = 0 then .nan else .inf (xor (decide (a < 0)) b)
  | .inf b, .num a => if a = 0 then .nan else .inf (xor (decide (a < 0)) b)
  | .inf b, .inf c => .inf (xor b c)
  | _, _ => .nan

/-- IEEE division (`/` on `f64`): a nonzero finite value divided by zero is
a signed infinity, `0 / 0` is NaN; finite division is exact. -/
def fdiv : FVal → FVal → FVal
  | .num a, .num b =>
    if b = 0 then (if a = 0 then .nan else .inf (decide (a < 0))) else .num (a / b)
  | .num _, .inf _ => .num 0
  | .inf b, .num a => .inf (xor (decide (a < 0)) b)
  | .inf _, .inf _ => .nan
  | _, _ => .nan

/-- The finite values of the real transcendental functions, which the model
does not compute: each field gives the value returned when the Rust call's
argument is inside the function's finite domain (`ln` for positive
arguments, `acos`/`asin` on `[-1, 1]`, `rpow` for a positive base and a
non-integer exponent, `atan_inf` for `atan (+inf)`).  All theorems below
hold for every choice of `RealFuns`. -/
structure RealFuns where
  acos : Q → Q
  asin : Q → Q
  atan : Q → Q
  cos : Q → Q
  sin : Q → Q
  tan : Q → Q
  exp : Q → Q
  ln : Q → Q
  log10 : Q → Q
  sqrt : Q → Q
  rpow : Q → Q → Q
  atan_inf : Q

/-- An arbitrary choice of `RealFuns`, used to instantiate theorems that
are universally quantified over the record. -/
def anyRealFuns : RealFuns :=
  { acos := fun _ => 0, asin := fun _ => 0, atan := fun _ => 0
    cos := fun _ => 0, sin := fun _ => 0, tan := fun _ => 0
    exp := fun _ => 0, ln := fun _ => 0, log10 := fun _ => 0
    sqrt := fun _ => 0, rpow := fun _ _ => 0, atan_inf := 0 }

/-- `f64::abs`. -/
def fabs : FVal → FVal
  | .num q => .num (Q.abs q)
  | .inf _ => .inf false
  | .nan => .nan

/-- `f64::acos`: NaN outside `[-1, 1]` (and on non-finite arguments). -/
def facos (R : RealFuns) : FVal → FVal
  | .num q => if -1 ≤ q ∧ q ≤ 1 then .num (R.acos q) else .nan
  | _ => .nan

/-- `f64::asin`: NaN outside `[-1, 1]` (and on non-finite arguments). -/
def fasin (R : RealFuns) : FVal → FVal
  | .num q => if -1 ≤ q ∧ q ≤ 1 then .num (R.asin q) else .nan
  | _ => .nan

/-- `f64::atan`: finite for every finite argument, `±π/2` at `±inf`. -/
def fatan (R : RealFuns) : FVal → FVal
  | .num q => .num (R.atan q)
  | .inf b => .num (if b then -R.atan_inf else R.atan_inf)
  | .nan => .nan

/-- `f64::cos`: finite for finite arguments, NaN at infinities. -/
def fcos (R : RealFuns) : FVal → FVal
  | .num q => .num (R.cos q)
  | _ => .nan

/-- `f64::sin`: finite for finite arguments, NaN at infinities. -/
def fsin (R : RealFuns) : FVal → FVal
  | .num q => .num (R.sin q)
  | _ => .nan

/-- `f64::tan`: finite for every finite argument (no finite `f64` is an
exact odd multiple of `π/2`), NaN at infinities. -/
def ftan (R : RealFuns) : FVal → FVal
  | .num q => .num (R.tan q)
  | _ => .nan

/-- `f64::exp`; finite arguments give the (idealised, non-overflowing)
finite value, `exp (+inf) = +inf`, `exp (-inf) = 0`. -/
def fexp (R : RealFuns) : FVal → FVal
  | .num q => .num (R.exp q)
  | .inf false => .inf false
  | .inf true => .num 0
  | .nan => .nan

/-- `f64::ln`: finite and positive gives a finite value, `ln 0 = -inf`,
negative arguments give NaN, `ln (+inf) = +inf`. -/
def fln (R : RealFuns) : FVal → FVal
  | .num q => if 0 < q then .num (R.ln q) else if q = 0 then .inf true else .nan
  | .inf false => .inf false
  | .inf true => .nan
  | .nan => .nan

/-- `f64::log10`: same domain behaviour as `ln`. -/
def flog10 (R : RealFuns) : FVal → FVal
  | .num q => if 0 < q then .num (R.log10 q) else if q = 0 then .inf true else .nan
  | .inf false => .inf false
  | .inf true => .nan
  | .nan => .nan

/-- `f64::sqrt`: NaN for negative arguments, finite otherwise,
`sqrt (+inf) = +inf`. -/
def fsqrt (R : RealFuns) : FVal → FVal
  | .num q => if 0 ≤ q then .num (R.sqrt q) else .nan
  | .inf false => .inf false
  | .inf true => .nan
  | .nan => .nan

/-- `f64::min`: if one argument is NaN the other is returned. -/
def fmin : FVal → FVal → FVal
  | .nan, y => y
  | x, .nan => x
  | .inf true, _ => .inf true
  | _, .inf true => .inf true
  | .inf false, y => y
  | x, .inf false => x
  | .num a, .num b => .num (Q.min a b)

/-- `f64::max`: if one argument is NaN the other is returned. -/
def fmax : FVal → FVal → FVal
  | .nan, y => y
  | x, .nan => x
  | .inf false, _ => .inf false
  | _, .inf false => .inf false
  | .inf true, y => y
  | x, .inf true => x
  | .num a, .num b => .num (Q.max a b)

/-- Whether a finite exponent is an odd integer (used by `powf`'s
sign rules for an infinite negative base). -/
def ratOddInt (b : Q) : Bool := decide (b.den = 1 ∧ b.num % 2 ≠ 0)

/-- `f64::powf`, following the IEEE `pow` special cases: `x ^ 0 = 1` and
`1 ^ y = 1` even for NaN, NaN propagates otherwise, integer exponents of a
finite base are exact (with `0 ^ negative = +inf`), a negative finite base
with a non-integer exponent is NaN, and a positive finite base with a
non-integer exponent takes its (uncomputed) value from `RealFuns.rpow`. -/
def fpow (R : RealFuns) (x y : FVal) : FVal :=
  match y with
  | .num b =>
    if b = 0 then .num 1
    else
      match x with
      | .nan => .nan
      | .inf false => if 0 < b then .inf false else .num 0
      | .inf true =>
        if 0 < b then (if ratOddInt b then .inf true else .inf false)
        else .num 0
      | .num a =>
        if a = 1 then .num 1
        else if a = 0 then (if 0 < b then .num 0 else .inf false)
        else if b.den = 1 then .num (Q.zpow a b.num)
        else if a < 0 then .nan
        else .num (R.rpow a b)
  | .inf c =>
    match x with
    | .nan => .nan
    | .inf _ => if c then .num 0 else .inf false
    | .num a =>
      if Q.abs a = 1 then .num 1
      else if 1 < Q.abs a then (if c then .num 0 else .inf false)
      else (if c then .inf false else .num 0)
  | .nan =>
    match x with
    | .num a => if a = 1 then .num 1 else .nan
    | _ => .nan

/-! ## Failures

`errors.rs` has a single `Error { description: String }` type, produced by
`Error::new`.  `Failure.error` carries such a description; a Rust `panic!`
or failed `expect`/slice (which unwinds instead of returning `Err`) is
modelled by `Failure.panicked`; `Failure.outOfFuel` is the parser model's
fuel-exhaustion marker (a modelling device, not source behaviour). -/
inductive Failure where
  | error (description : String)
  | panicked (message : String)
  | outOfFuel
deriving DecidableEq, Repr

instance {ε α : Type} [DecidableEq ε] [DecidableEq α] : DecidableEq (Except ε α) := by
  intro a b
  cases a <;> cases b
  case error.error x y =>
    exact match decEq x y with
    | isTrue h => isTrue (by rw [h])
    | isFalse h => isFalse (fun hc => h (by cases hc; rfl))
  case ok.ok x y =>
    exact match decEq x y with
    | isTrue h => isTrue (by rw [h])
    | isFalse h => isFalse (fun hc => h (by cases hc; rfl))
  all_goals exact isFalse (fun hc => by cases hc)

/-! ## Lexer (`lexer.rs`) -/

/-- `OperatorType` from `lexer.rs`. -/
inductive OperatorType where
  | Plus
  | Minus
  | Times
  | DividedBy
  | Power
  | LeftParen
  | RightParen
  | Comma
  | Assignment
deriving DecidableEq, Repr

/-- `FunctionType` from `lexer.rs`. -/
inductive FunctionType where
  | Abs
  | ArcCos
  | ArcSin
  | ArcTan
  | Cos
  | Exp
  | Ln
  | Log
  | Max
  | Min
  | Pow
  | Sin
  | Sqrt
  | Tan
deriving DecidableEq, Repr

/-- `CommandType` from `lexer.rs`. -/
inductive CommandType where
  | Help
  | Quit
deriving DecidableEq, Repr

/-- `Token` from `lexer.rs`. -/
inductive Token where
  | Command (c : CommandType)
  | Literal (v : FVal)
  | Operator (o : OperatorType)
  | Variable (c : Char)
  | Function (f : FunctionType)
  | Eol
deriving DecidableEq, Repr

/-- The lexer state: the remaining text and the current token, exactly the
two fields of the Rust `Lexer` struct (the borrowed `&str` becomes the
list of remaining characters). -/
structure Lexer where
  text : List Char
  current_token : Token
deriving DecidableEq, Repr

/-- `Lexer::new`. -/
def Lexer.new (s : List Char) : Lexer := ⟨s, Token.Eol⟩

/-- `Lexer::current` (always `Ok`). -/
def Lexer.current (lx : Lexer) : Except Failure Token := .ok lx.current_token

/-- `char::is_whitespace` (the Unicode `White_Space` property, which is
what Rust's `char::is_whitespace` tests). -/
def rust_is_whitespace (c : Char) : Bool :=
  decide (c.toNat = 0x09 ∨ c.toNat = 0x0A ∨ c.toNat = 0x0B ∨ c.toNat = 0x0C ∨
  c.toNat = 0x0D ∨ c.toNat = 0x20 ∨ c.toNat = 0x85 ∨ c.toNat = 0xA0 ∨
  c.toNat = 0x1680 ∨ (0x2000 ≤ c.toNat ∧ c.toNat ≤ 0x200A) ∨
  c.toNat = 0x2028 ∨ c.toNat = 0x2029 ∨ c.toNat = 0x202F ∨
  c.toNat = 0x205F ∨ c.toNat = 0x3000)

/-- The number of bytes in the UTF-8 encoding of `c`. -/
def utf8_len (c : Char) : Nat :=
  if c.toNat < 0x80 then 1
  else if c.toNat < 0x800 then 2
  else if c.toNat < 0x10000 then 3
  else 4

/-- `Lexer::skip_whitespace`: repeatedly tests the first character with
`char::is_whitespace` and slices off `&self.text[1..]`.  The slice index 1
is a byte index: when the whitespace character occupies more than one
UTF-8 byte the slice is not on a character boundary and the Rust program
panics, modelled by `Failure.panicked`. -/
def skip_whitespace : List Char → Except Failure (List Char)
  | [] => .ok []
  | c :: rest =>
    if rust_is_whitespace c then
      if utf8_len c = 1 then skip_whitespace rest
      else .error (.panicked "byte index 1 is not a char boundary")
    else .ok (c :: rest)

/-- `lexer::utility::scan_digits`: the number of leading ASCII digits. -/
def scan_digits : List Char → Nat
  | [] => 0
  | c :: rest => if c.isDigit then scan_digits rest + 1 else 0

/-- The numeric value of a string of ASCII digits. -/
def digits_val (cs : List Char) : Nat :=
  cs.foldl (fun a c => 10 * a + (c.toNat - 48)) 0

/-- The exact rational value of a decimal literal with integer digits
`ip`, fraction digits `fp` and exponent digits `ed`. -/
def decimal_value (ip fp ed : List Char) : Q :=
  mkQ ((digits_val ip * Nat.pow 10 fp.length + digits_val fp) *
        Nat.pow 10 (digits_val ed) : Nat)
      (Nat.pow 10 fp.length)

/-- Model of Rust's `str::parse::<f64>` on the literal shapes the lexer
delimits (`digits ['.' digits] ['e' digits]`): the exact decimal value,
idealised to an exact mantissa, except that a value whose magnitude
reaches `2 ^ 1024` overflows to `+inf` (Rust's `from_str` returns
infinity rather than an error there, e.g. on `"1e999"`). -/
def parse_f64 (cs : List Char) : FVal :=
  let ip := cs.takeWhile (·.isDigit)
  let rest := cs.dropWhile (·.isDigit)
  let fp := match rest with
    | '.' :: r => r.takeWhile (·.isDigit)
    | _ => []
  let rest2 := match rest with
    | '.' :: r => r.dropWhile (·.isDigit)
    | _ => rest
  let ed := match rest2 with
    | 'e' :: r => r.takeWhile (·.isDigit)
    | _ => []
  if Nat.pow 2 1024 * Nat.pow 10 fp.length ≤
      (digits_val ip * Nat.pow 10 fp.length + digits_val fp) *
        Nat.pow 10 (digits_val ed) then
    FVal.inf false
  else
    FVal.num (decimal_value ip fp ed)

/-- `Lexer::get_literal`, operating on the remaining text and returning
the token together with the text left over.  The final
`parse::<f64>().expect(..)` cannot fail on the substring the scan
delimits (it always has at least one digit), so the model converts it
directly with `parse_f64`. -/
def get_literal (text : List Char) : Except Failure (Token × List Char) :=
  let d := scan_digits text
  let afterInt : Except Failure Nat :=
    match text.drop d with
    | c0 :: r =>
      if c0 = '.' then
        let decimals := scan_digits r
        if decimals = 0 then .error (.error "Syntax error: No digits following \x27.\x27.")
        else .ok (d + 1 + decimals)
      else .ok d
    | [] => .ok d
  match afterInt with
  | .error f => .error f
  | .ok consumed =>
    let consumed :=
      match text.drop consumed with
      | c0 :: d2 :: _ =>
        if c0 = 'e' ∧ d2.isDigit then consumed + 1 + scan_digits (text.drop (consumed + 1))
        else consumed
      | _ => consumed
    .ok (Token.Literal (parse_f64 (text.take consumed)), text.drop consumed)

/-- The operator spelling table from `Lexer::get_operator`. -/
def operators : List (Char × OperatorType) :=
  [('+', .Plus), ('-', .Minus), ('*', .Times), ('/', .DividedBy),
   ('^', .Power), ('(', .LeftParen), (')', .RightParen), (',', .Comma),
   ('=', .Assignment)]

/-- `Lexer::get_operator`. -/
def get_operator (text : List Char) : Except Failure (Token × List Char) :=
  match text with
  | [] => .ok (Token.Eol, [])
  | symbol :: rest =>
    match operators.find? (fun p => p.fst == symbol) with
    | some p => .ok (Token.Operator p.snd, rest)
    | none => .error (.error "Syntax error: Unexpected character.")

/-- The command keyword table from `Lexer::get_name`. -/
def cmd_spellings : List (String × CommandType) :=
  [("help", .Help), ("quit", .Quit)]

/-- The function keyword table from `Lexer::get_name`. -/
def func_spellings : List (String × FunctionType) :=
  [("abs", .Abs), ("arccos", .ArcCos), ("arcsin", .ArcSin),
   ("arctan", .ArcTan), ("cos", .Cos), ("exp", .Exp), ("ln", .Ln),
   ("log", .Log), ("max", .Max), ("min", .Min), ("pow", .Pow),
   ("sin", .Sin), ("sqrt", .Sqrt), ("tan", .Tan)]

/-- First table entry whose spelling is a prefix of the text (the tables
are scanned in declaration order, by `starts_with`), together with the
text after the matched spelling. -/
def match_table {α : Type} : List (String × α) → List Char → Option (α × List Char)
  | [], _ => none
  | (sp, v) :: rest, text =>
    if sp.data.isPrefixOf text then some (v, text.drop sp.data.length)
    else match_table rest text

/-- `Lexer::get_name`: command keywords first, then function keywords,
else a single-letter variable (the `expect` on empty text panics, but the
caller guarantees a leading lowercase letter). -/
def get_name (text : List Char) : Except Failure (Token × List Char) :=
  match match_table cmd_spellings text with
  | some (cmd, rest) => .ok (Token.Command cmd, rest)
  | none =>
    match match_table func_spellings text with
    | some (f, rest) => .ok (Token.Function f, rest)
    | none =>
      match text with
      | v :: rest => .ok (Token.Variable v, rest)
      | [] => .error (.panicked "Lexer::get_symbol(): lexer is in an invalid state.")

/-- The `leading_operator_symbols` string from `Lexer::get_next`. -/
def leading_operator_symbols : List Char := "+-*/^(),=".data

/-- `Lexer::get_next`: skip whitespace, dispatch on the first character
(digit or dot → literal, operator symbol → operator, ASCII lowercase →
name, otherwise a lex error), returning the token and the new state. -/
def Lexer.get_next (lx : Lexer) : Except Failure Token × Lexer :=
  match skip_whitespace lx.text with
  | .error f => (.error f, lx)
  | .ok [] => (.ok Token.Eol, ⟨[], Token.Eol⟩)
  | .ok (first :: rest) =>
    if first.isDigit || first == '.' then
      match get_literal (first :: rest) with
      | .ok (t, text') => (.ok t, ⟨text', t⟩)
      | .error f => (.error f, ⟨first :: rest, lx.current_token⟩)
    else if leading_operator_symbols.contains first then
      match get_operator (first :: rest) with
      | .ok (t, text') => (.ok t, ⟨text', t⟩)
      | .error f => (.error f, ⟨first :: rest, lx.current_token⟩)
    else if first.isLower then
      match get_name (first :: rest) with
      | .ok (t, text') => (.ok t, ⟨text', t⟩)
      | .error f => (.error f, ⟨first :: rest, lx.current_token⟩)
    else
      (.error (.error ("Syntax error: unrecognized character: " ++ String.singleton first ++ ".")),
       ⟨first :: rest, lx.current_token⟩)

/-- `Lexer::peek_next`: save the two state fields, run `get_next`, restore
both fields, and return `get_next`'s result. -/
def Lexer.peek_next (lx : Lexer) : Except Failure Token × Lexer :=
  let saved_text := lx.text
  let saved_current_token := lx.current_token
  let next := (Lexer.get_next lx).1
  (next, ⟨saved_text, saved_current_token⟩)

/-- Run the lexer to the end of input, collecting the tokens before the
final `Eol` (fueled; each produced token consumes at least one character,
so `length + 1` fuel suffices). -/
def tokenize_from : Nat → Lexer → Except Failure (List Token)
  | 0, _ => .error .outOfFuel
  | f + 1, lx =>
    match Lexer.get_next lx with
    | (.error e, _) => .error e
    | (.ok Token.Eol, _) => .ok []
    | (.ok t, lx') =>
      match tokenize_from f lx' with
      | .ok ts => .ok (t :: ts)
      | .error e => .error e

/-- The token sequence of an input line. -/
def tokenize (s : String) : Except Failure (List Token) :=
  tokenize_from (s.data.length + 1) (Lexer.new s.data)

/-! ## Syntax trees (`parser.rs`) -/

/-- `Expression` from `parser.rs` (the boxed node structs are inlined:
`ParenExpression`, `UnaryExpression`, `BinaryExpression`,
`FunctionExpression`, `VariableExpression`, `LiteralExpression`). -/
inductive Expression where
  | ParenExpr (expr : Expression)
  | UnaryExpr (op : OperatorType) (expr : Expression)
  | BinaryExpr (op : OperatorType) (left right : Expression)
  | FunctionExpr (func : FunctionType) (args : List Expression)
  | VariableExpr (var : Char)
  | LiteralExpr (val : FVal)

mutual

/-- Structural equality test on expressions (the nested `List` keeps the
derive handler from producing it). -/
def exprBEq : Expression → Expression → Bool
  | .ParenExpr a, .ParenExpr b => exprBEq a b
  | .UnaryExpr o a, .UnaryExpr p b => o == p && exprBEq a b
  | .BinaryExpr o a c, .BinaryExpr p b d => o == p && exprBEq a b && exprBEq c d
  | .FunctionExpr g as, .FunctionExpr h bs => g == h && exprListBEq as bs
  | .VariableExpr v, .VariableExpr w => v == w
  | .LiteralExpr x, .LiteralExpr y => x == y
  | _, _ => false

/-- Structural equality test on expression lists. -/
def exprListBEq : List Expression → List Expression → Bool
  | [], [] => true
  | a :: as, b :: bs => exprBEq a b && exprListBEq as bs
  | _, _ => false

end

mutual

theorem exprBEq_iff : ∀ a b : Expression, exprBEq a b = true ↔ a = b
  | .ParenExpr a, .ParenExpr b => by
    simp only [exprBEq, exprBEq_iff a b, Expression.ParenExpr.injEq]
  | .UnaryExpr o a, .UnaryExpr p b => by
    simp only [exprBEq, Bool.and_eq_true, beq_iff_eq, exprBEq_iff a b,
      Expression.UnaryExpr.injEq]
  | .BinaryExpr o a c, .BinaryExpr p b d => by
    simp only [exprBEq, Bool.and_eq_true, beq_iff_eq, exprBEq_iff a b,
      exprBEq_iff c d, Expression.BinaryExpr.injEq, and_assoc]
  | .FunctionExpr g as, .FunctionExpr h bs => by
    simp only [exprBEq, Bool.and_eq_true, beq_iff_eq, exprListBEq_iff as bs,
      Expression.FunctionExpr.injEq]
  | .VariableExpr v, .VariableExpr w => by
    simp only [exprBEq, beq_iff_eq, Expression.VariableExpr.injEq]
  | .LiteralExpr x, .LiteralExpr y => by
    simp only [exprBEq, beq_iff_eq, Expression.LiteralExpr.injEq]
  | .ParenExpr _, .UnaryExpr _ _ | .ParenExpr _, .BinaryExpr _ _ _
  | .ParenExpr _, .FunctionExpr _ _ | .ParenExpr _, .VariableExpr _
  | .ParenExpr _, .LiteralExpr _
  | .UnaryExpr _ _, .ParenExpr _ | .UnaryExpr _ _, .BinaryExpr _ _ _
  | .UnaryExpr _ _, .FunctionExpr _ _ | .UnaryExpr _ _, .VariableExpr _
  | .UnaryExpr _ _, .LiteralExpr _
  | .BinaryExpr _ _ _, .ParenExpr _ | .BinaryExpr _ _ _, .UnaryExpr _ _
  | .BinaryExpr _ _ _, .FunctionExpr _ _ | .BinaryExpr _ _ _, .VariableExpr _
  | .BinaryExpr _ _ _, .LiteralExpr _
  | .FunctionExpr _ _, .ParenExpr _ | .FunctionExpr _ _, .UnaryExpr _ _
  | .FunctionExpr _ _, .BinaryExpr _ _ _ | .FunctionExpr _ _, .VariableExpr _
  | .FunctionExpr _ _, .LiteralExpr _
  | .VariableExpr _, .ParenExpr _ | .VariableExpr _, .UnaryExpr _ _
  | .VariableExpr _, .BinaryExpr _ _ _ | .VariableExpr _, .FunctionExpr _ _
  | .VariableExpr _, .LiteralExpr _
  | .LiteralExpr _, .ParenExpr _ | .LiteralExpr _, .UnaryExpr _ _
  | .LiteralExpr _, .BinaryExpr _ _ _ | .LiteralExpr _, .FunctionExpr _ _
  | .LiteralExpr _, .VariableExpr _ => by
    simp only [exprBEq, Bool.false_eq_true, false_iff]
    intro h
    exact absurd h (by simp)

theorem exprListBEq_iff : ∀ as bs : List Expression, exprListBEq as bs = true ↔ as = bs
  | [], [] => by simp [exprListBEq]
  | a :: as, b :: bs => by
    simp only [exprListBEq, Bool.and_eq_true, exprBEq_iff a b,
      exprListBEq_iff as bs, List.cons.injEq]
  | [], _ :: _ => by
    simp [exprListBEq]
  | _ :: _, [] => by
    simp [exprListBEq]

end

instance : DecidableEq Expression := fun a b =>
  decidable_of_iff (exprBEq a b = true) (exprBEq_iff a b)

/-- `Statement` from `parser.rs` (an `AssignmentStatement` holds a
`VariableExpression`, i.e. its character, and the right-hand side). -/
inductive Statement where
  | CommandStmt (command : CommandType)
  | AssignmentStmt (var : Char) (expression : Expression)
deriving DecidableEq

/-- `Program` from `parser.rs`. -/
inductive Program where
  | Stmt (s : Statement)
  | Expr (e : Expression)
deriving DecidableEq

/-! ## Parser (`parser.rs`)

Each `Parser::parse_*` method becomes a function from the lexer state to
`Except Failure (result × Lexer)`.  `self.lexer.current()?` never fails
(`Lexer::current` always returns `Ok`), so the model reads
`lx.current_token` directly.  The `loop`s become tail-recursive helper
functions (`*_loop`).  Every function takes a fuel argument and consumes
one unit on entry; the Rust recursion consumes at least one input
character per nesting level, so the driver's fuel is never exhausted. -/

/-- `Parser::require_operator`: require and consume. -/
def require_operator (t : OperatorType) (lx : Lexer) : Except Failure (Token × Lexer) :=
  let token := lx.current_token
  match token with
  | Token.Operator op =>
    if op = t then
      match Lexer.get_next lx with
      | (.error e, _) => .error e
      | (.ok _, lx') => .ok (token, lx')
    else .error (.error "Parse error: ")
  | _ => .error (.error "Parse error: ")

/-- `Parser::require_end_of_input`. -/
def require_end_of_input (lx : Lexer) : Except Failure (Token × Lexer) :=
  match lx.current_token with
  | Token.Eol => .ok (Token.Eol, lx)
  | _ => .error (.error "Parse error: extra characters at the end of line.")

mutual

/-- `Parser::parse_expression`. -/
def parse_expression : Nat → Lexer → Except Failure (Expression × Lexer)
  | 0, _ => .error .outOfFuel
  | f + 1, lx => parse_additive_expression f lx

/-- `Parser::parse_additive_expression`. -/
def parse_additive_expression : Nat → Lexer → Except Failure (Expression × Lexer)
  | 0, _ => .error .outOfFuel
  | f + 1, lx =>
    match parse_multiplicative_expression f lx with
    | .error e => .error e
    | .ok (result, lx') => additive_loop f result lx'

/-- The `loop` of `Parser::parse_additive_expression`. -/
def additive_loop : Nat → Expression → Lexer → Except Failure (Expression × Lexer)
  | 0, _, _ => .error .outOfFuel
  | f + 1, result, lx =>
    match lx.current_token with
    | Token.Operator op =>
      if op = OperatorType.Plus ∨ op = OperatorType.Minus then
        match Lexer.get_next lx with
        | (.error e, _) => .error e
        | (.ok _, lx1) =>
          match parse_multiplicative_expression f lx1 with
          | .error e => .error e
          | .ok (rhs, lx2) => additive_loop f (Expression.BinaryExpr op result rhs) lx2
      else .ok (result, lx)
    | _ => .ok (result, lx)

/-- `Parser::parse_multiplicative_expression`. -/
def parse_multiplicative_expression : Nat → Lexer → Except Failure (Expression × Lexer)
  | 0, _ => .error .outOfFuel
  | f + 1, lx =>
    match parse_power_expression f lx with
    | .error e => .error e
    | .ok (result, lx') => multiplicative_loop f result lx'

/-- The `loop` of `Parser::parse_multiplicative_expression`: explicit `*`
and `/`, plus the two implicit-multiplication arms (a left parenthesis, or
a juxtaposed variable/function token, where an operator was expected). -/
def multiplicative_loop : Nat → Expression → Lexer → Except Failure (Expression × Lexer)
  | 0, _, _ => .error .outOfFuel
  | f + 1, result, lx =>
    match lx.current_token with
    | Token.Operator op =>
      if op = OperatorType.Times ∨ op = OperatorType.DividedBy then
        match Lexer.get_next lx with
        | (.error e, _) => .error e
        | (.ok _, lx1) =>
          match parse_power_expression f lx1 with
          | .error e => .error e
          | .ok (rhs, lx2) => multiplicative_loop f (Expression.BinaryExpr op result rhs) lx2
      else if op = OperatorType.LeftParen then
        -- Support constructs like a(b+c)
        match parse_term f lx with
        | .error e => .error e
        | .ok (rhs, lx1) =>
          multiplicative_loop f (Expression.BinaryExpr OperatorType.Times result rhs) lx1
      else .ok (result, lx)
    | Token.Variable _ =>
      -- Support constructs like "2x", "ax^2", "-3sqrt(...", etc
      match parse_power_expression f lx with
      | .error e => .error e
      | .ok (rhs, lx1) =>
        multiplicative_loop f (Expression.BinaryExpr OperatorType.Times result rhs) lx1
    | Token.Function _ =>
      match parse_power_expression f lx with
      | .error e => .error e
      | .ok (rhs, lx1) =>
        multiplicative_loop f (Expression.BinaryExpr OperatorType.Times result rhs) lx1
    | _ => .ok (result, lx)

/-- `Parser::parse_power_expression`. -/
def parse_power_expression : Nat → Lexer → Except Failure (Expression × Lexer)
  | 0, _ => .error .outOfFuel
  | f + 1, lx =>
    match parse_term f lx with
    | .error e => .error e
    | .ok (result, lx') => power_loop f result lx'

/-- The `loop` of `Parser::parse_power_expression`: left-associative by
construction (the new node's left child is the accumulated result). -/
def power_loop : Nat → Expression → Lexer → Except Failure (Expression × Lexer)
  | 0, _, _ => .error .outOfFuel
  | f + 1, result, lx =>
    match lx.current_token with
    | Token.Operator OperatorType.Power =>
      match Lexer.get_next lx with
      | (.error e, _) => .error e
      | (.ok _, lx1) =>
        match parse_term f lx1 with
        | .error e => .error e
        | .ok (rhs, lx2) => power_loop f (Expression.BinaryExpr OperatorType.Power result rhs) lx2
    | _ => .ok (result, lx)

/-- `Parser::parse_term`. -/
def parse_term : Nat → Lexer → Except Failure (Expression × Lexer)
  | 0, _ => .error .outOfFuel
  | f + 1, lx =>
    match lx.current_token with
    | Token.Command _ => .error (.error "Parse error: unexpected command TODO")
    | Token.Literal val =>
      match Lexer.get_next lx with
      | (.error e, _) => .error e
      | (.ok _, lx') => .ok (Expression.LiteralExpr val, lx')
    | Token.Operator op =>
      if op = OperatorType.LeftParen then
        match Lexer.get_next lx with
        | (.error e, _) => .error e
        | (.ok _, lx1) =>
          match parse_expression f lx1 with
          | .error e => .error e
          | .ok (expr, lx2) =>
            match require_operator OperatorType.RightParen lx2 with
            | .error e => .error e
            | .ok (_, lx3) => .ok (Expression.ParenExpr expr, lx3)
      else if op = OperatorType.Plus ∨ op = OperatorType.Minus then
        match Lexer.get_next lx with
        | (.error e, _) => .error e
        | (.ok _, lx1) =>
          match parse_term f lx1 with
          | .error e => .error e
          | .ok (expr, lx2) => .ok (Expression.UnaryExpr op expr, lx2)
      else .error (.error "Parse error: ")
    | Token.Variable var =>
      match Lexer.get_next lx with
      | (.error e, _) => .error e
      | (.ok _, lx') => .ok (Expression.VariableExpr var, lx')
    | Token.Function func =>
      match Lexer.get_next lx with
      | (.error e, _) => .error e
      | (.ok _, lx1) =>
        match require_operator OperatorType.LeftParen lx1 with
        | .error e => .error e
        | .ok (_, lx2) =>
          match parse_expression_list f lx2 with
          | .error e => .error e
          | .ok (args, lx3) =>
            match require_operator OperatorType.RightParen lx3 with
            | .error e => .error e
            | .ok (_, lx4) => .ok (Expression.FunctionExpr func args, lx4)
    | Token.Eol => .error (.error "Parse error: unexpected end of input.")

/-- `Parser::parse_expression_list`: the `done` pre-test (an immediate
right parenthesis yields the empty list). -/
def parse_expression_list : Nat → Lexer → Except Failure (List Expression × Lexer)
  | 0, _ => .error .outOfFuel
  | f + 1, lx =>
    match lx.current_token with
    | Token.Operator OperatorType.RightParen => .ok ([], lx)
    | _ => expression_list_loop f [] lx

/-- The `while !done` loop of `Parser::parse_expression_list`
(`acc` holds the arguments parsed so far, in order). -/
def expression_list_loop : Nat → List Expression → Lexer → Except Failure (List Expression × Lexer)
  | 0, _, _ => .error .outOfFuel
  | f + 1, acc, lx =>
    match parse_expression f lx with
    | .error e => .error e
    | .ok (arg, lx1) =>
      match lx1.current_token with
      | Token.Operator OperatorType.RightParen => .ok (acc ++ [arg], lx1)
      | Token.Operator OperatorType.Comma =>
        match Lexer.get_next lx1 with
        | (.error e, _) => .error e
        | (.ok _, lx2) => expression_list_loop f (acc ++ [arg]) lx2
      | _ => .error (.error "Parse error: either \x27)\x27 or \x27,\x27 must follow argument.")

end

/-- `Parser::parse_command_program`. -/
def parse_command_program (f : Nat) (lx : Lexer) : Except Failure (Program × Lexer) :=
  match f, lx.current_token with
  | 0, _ => .error .outOfFuel
  | _ + 1, Token.Command cmd =>
    match Lexer.get_next lx with
    | (.error e, _) => .error e
    | (.ok _, lx1) =>
      match require_end_of_input lx1 with
      | .error e => .error e
      | .ok (_, lx2) => .ok (Program.Stmt (Statement.CommandStmt cmd), lx2)
  | _ + 1, _ => .error (.panicked "Parser::parse_command_program(): logic error.")

/-- `Parser::parse_assignment_program` (the caller has vetted that the
current token is a variable followed by `=`). -/
def parse_assignment_program (f : Nat) (lx : Lexer) : Except Failure (Program × Lexer) :=
  match f with
  | 0 => .error .outOfFuel
  | f + 1 =>
    -- The Rust code reads `self.lexer.current()` into `variable` before the
    -- `get_next` call; the model's `lx` binding is immutable, so reading
    -- `lx.current_token` in the inner match below is the same value.
    match Lexer.get_next lx with
    | (.error e, _) => .error e
    | (.ok _, lx1) =>
      match lx.current_token with
      | Token.Variable var =>
        match Lexer.get_next lx1 with
        | (.error e, _) => .error e
        | (.ok _, lx2) =>
          match parse_expression f lx2 with
          | .error e => .error e
          | .ok (rhs, lx3) =>
            match require_end_of_input lx3 with
            | .error e => .error e
            | .ok (_, lx4) => .ok (Program.Stmt (Statement.AssignmentStmt var rhs), lx4)
      | _ => .error (.panicked "Parser::parse_assignment_program(): logic error.")

/-- `Parser::parse_expression_program`. -/
def parse_expression_program (f : Nat) (lx : Lexer) : Except Failure (Program × Lexer) :=
  match f with
  | 0 => .error .outOfFuel
  | f + 1 =>
    match parse_expression f lx with
    | .error e => .error e
    | .ok (expr, lx1) =>
      match require_end_of_input lx1 with
      | .error e => .error e
      | .ok (_, lx2) => .ok (Program.Expr expr, lx2)

/-- `Parser::parse_program`: classify the statement from the current token
with one token of lookahead (`peek_next` for the variable/assignment
case; its `?` propagates a lexer error). -/
def parse_program (f : Nat) (lx : Lexer) : Except Failure (Program × Lexer) :=
  match f with
  | 0 => .error .outOfFuel
  | f + 1 =>
    match lx.current_token with
    | Token.Command _ => parse_command_program f lx
    | Token.Variable _ =>
      match (Lexer.peek_next lx).1 with
      | .error e => .error e
      | .ok (Token.Operator OperatorType.Assignment) => parse_assignment_program f lx
      | .ok _ => parse_expression_program f lx
    | _ => parse_expression_program f lx

/-- The fuel the driver hands to the fueled parser: far more than the
recursion can consume on `n` characters of input (each nesting level and
each loop iteration consumes input). -/
def parse_fuel (n : Nat) : Nat := 8 * n + 64

/-- `Parser::parse` on one line of input: build a fresh lexer, fetch the
first token, and parse a program. -/
def parse (s : List Char) : Except Failure Program :=
  match Lexer.get_next (Lexer.new s) with
  | (.error e, _) => .error e
  | (.ok _, lx1) =>
    match parse_program (parse_fuel s.length) lx1 with
    | .error e => .error e
    | .ok (prog, _) => .ok prog

/-- `Parser::parse` on a string. -/
def parse_line (s : String) : Except Failure Program := parse s.data

/-! ## Evaluator (`evaluation.rs`)

The `HashMap<char, f64>` environment becomes a function
`Char → Option FVal` (`variables.get`). -/

/-- The variable environment. -/
def Env : Type := Char → Option FVal

/-- The empty environment. -/
def emptyEnv : Env := fun _ => none

/-- `evaluation::utility::error`. -/
def eval_error (description : String) : Except Failure FVal :=
  .error (.error ("evaluation error: " ++ description ++ "."))

/-- `evaluation::utility::verify_result`: keep a finite result, otherwise
fail with the supplied description. -/
def verify_result (result : FVal) (on_failure : String) : Except Failure FVal :=
  if result.isFinite then .ok result else eval_error on_failure

/-- `evaluation::utility::require_fixed_args` (the `Ok` payload is a dummy). -/
def require_fixed_args (args_size required_size : Nat) (func_name : String) :
    Except Failure FVal :=
  if args_size = required_size then .ok (.num 0)
  else if required_size = 1 then
    eval_error (func_name ++ ": single argument required, got " ++ toString args_size)
  else
    eval_error (func_name ++ ": " ++ toString required_size ++ " arguments required, got "
      ++ toString args_size)

/-- `evaluation::utility::require_min_args`. -/
def require_min_args (args_size required_min_size : Nat) (func_name : String) :
    Except Failure FVal :=
  if required_min_size ≤ args_size then .ok (.num 0)
  else
    eval_error (func_name ++ ": at least " ++ toString required_min_size
      ++ " arguments required, got " ++ toString args_size)

/-- `evaluation::utility::compute_min`: fold `f64::min` over the list
(`args[0]` panics on an empty list, but both call sites have already
required at least 2 arguments). -/
def compute_min : List FVal → Except Failure FVal
  | [] => .error (.panicked "index out of bounds: the len is 0 but the index is 0")
  | a :: rest => .ok (rest.foldl fmin a)

/-- `evaluation::utility::compute_max`. -/
def compute_max : List FVal → Except Failure FVal
  | [] => .error (.panicked "index out of bounds: the len is 0 but the index is 0")
  | a :: rest => .ok (rest.foldl fmax a)

/-- The first evaluated argument (`args[0]` in Rust; the preceding arity
check guarantees it exists). -/
def arg0 : List FVal → Except Failure FVal
  | [] => .error (.panicked "index out of bounds: the len is 0 but the index is 0")
  | a :: _ => .ok a

/-- The body of `FunctionExpression::evaluate` after all the arguments
have been evaluated: arity check, library call, and for the
domain-restricted functions a `verify_result` with the function-specific
description. -/
def apply_function (R : RealFuns) (func : FunctionType) (args : List FVal) :
    Except Failure FVal :=
  match func with
  | .Abs =>
    match require_fixed_args args.length 1 "abs" with
    | .error e => .error e
    | .ok _ => match arg0 args with
      | .error e => .error e
      | .ok a => .ok (fabs a)
  | .ArcCos =>
    match require_fixed_args args.length 1 "arccos" with
    | .error e => .error e
    | .ok _ => match arg0 args with
      | .error e => .error e
      | .ok a => verify_result (facos R a) "arccos: argument must be between -1..1"
  | .ArcSin =>
    match require_fixed_args args.length 1 "arcsin" with
    | .error e => .error e
    | .ok _ => match arg0 args with
      | .error e => .error e
      | .ok a => verify_result (fasin R a) "arcsin: argument must be between -1..1"
  | .ArcTan =>
    match require_fixed_args args.length 1 "arctan" with
    | .error e => .error e
    | .ok _ => match arg0 args with
      | .error e => .error e
      | .ok a => .ok (fatan R a)
  | .Cos =>
    match require_fixed_args args.length 1 "cos" with
    | .error e => .error e
    | .ok _ => match arg0 args with
      | .error e => .error e
      | .ok a => .ok (fcos R a)
  | .Exp =>
    match require_fixed_args args.length 1 "exp" with
    | .error e => .error e
    | .ok _ => match arg0 args with
      | .error e => .error e
      | .ok a => verify_result (fexp R a) "exp: overflow"
  | .Ln =>
    match require_fixed_args args.length 1 "ln" with
    | .error e => .error e
    | .ok _ => match arg0 args with
      | .error e => .error e
      | .ok a => verify_result (fln R a) "ln: argument must be greater than zero"
  | .Log =>
    match require_fixed_args args.length 1 "log" with
    | .error e => .error e
    | .ok _ => match arg0 args with
      | .error e => .error e
      | .ok a => verify_result (flog10 R a) "log: argument must be greater than zero"
  | .Max =>
    match require_min_args args.length 2 "max" with
    | .error e => .error e
    | .ok _ => compute_max args
  | .Min =>
    match require_min_args args.length 2 "min" with
    | .error e => .error e
    | .ok _ => compute_min args
  | .Pow =>
    match require_fixed_args args.length 2 "pow" with
    | .error e => .error e
    | .ok _ =>
      match args with
      | a :: b :: _ => verify_result (fpow R a b) "pow: the result is undefined"
      | _ => .error (.panicked "index out of bounds: the len is 0 but the index is 0")
  | .Sin =>
    match require_fixed_args args.length 1 "sin" with
    | .error e => .error e
    | .ok _ => match arg0 args with
      | .error e => .error e
      | .ok a => .ok (fsin R a)
  | .Sqrt =>
    match require_fixed_args args.length 1 "sqrt" with
    | .error e => .error e
    | .ok _ => match arg0 args with
      | .error e => .error e
      | .ok a => verify_result (fsqrt R a) "sqrt: argument must be nonnegative"
  | .Tan =>
    match require_fixed_args args.length 1 "tan" with
    | .error e => .error e
    | .ok _ => match arg0 args with
      | .error e => .error e
      | .ok a => verify_result (ftan R a) "tan: result is undefined"

mutual

/-- `Evaluable::evaluate` for `Expression` and every node struct
(`evaluation.rs`): paren forwards, unary applies `+`/`-` (any other
operator is the `panic!` branch), binary evaluates left then right and
verifies the arithmetic result finite, a call evaluates the arguments
left to right and applies the function, a variable is looked up in the
environment, a literal returns its stored value. -/
def evaluate (R : RealFuns) (env : Env) : Expression → Except Failure FVal
  | .ParenExpr e => evaluate R env e
  | .UnaryExpr op e =>
    match evaluate R env e with
    | .error err => .error err
    | .ok inner_result =>
      match op with
      | .Plus => .ok inner_result
      | .Minus => .ok (fneg inner_result)
      | _ => .error (.panicked "Parser::UnaryExression::evaluate: parser is in an invalid state.")
  | .BinaryExpr op l r =>
    match evaluate R env l with
    | .error err => .error err
    | .ok left_result =>
      match evaluate R env r with
      | .error err => .error err
      | .ok right_result =>
        match op with
        | .Plus => verify_result (fadd left_result right_result) "arithmetic overflow during addition"
        | .Minus => verify_result (fsub left_result right_result) "arithmetic overflow during subtraction"
        | .Times => verify_result (fmul left_result right_result) "arithmetic overflow during multiplication"
        | .DividedBy => verify_result (fdiv left_result right_result) "arithmetic overflow during division"
        | .Power => verify_result (fpow R left_result right_result) "result of exponentiation is undefined"
        | _ => .error (.panicked "BinaryExression::evaluate: parser is in an invalid state.")
  | .FunctionExpr func args =>
    match evaluate_args R env args with
    | .error err => .error err
    | .ok vals => apply_function R func vals
  | .VariableExpr v =>
    match env v with
    | some val => .ok val
    | none => eval_error ("variable " ++ String.singleton v ++ " is undefined")
  | .LiteralExpr val => .ok val

/-- The argument-evaluation loop of `FunctionExpression::evaluate`
(left to right, stopping at the first failure). -/
def evaluate_args (R : RealFuns) (env : Env) : List Expression → Except Failure (List FVal)
  | [] => .ok []
  | e :: es =>
    match evaluate R env e with
    | .error err => .error err
    | .ok v =>
      match evaluate_args R env es with
      | .error err => .error err
      | .ok vs => .ok (v :: vs)

end

/-- Parse one line and evaluate it as a bare expression (the shape the
claims exercise; a statement program is reported as such). -/
def run_expression (R : RealFuns) (env : Env) (s : String) : Except Failure FVal :=
  match parse_line s with
  | .error e => .error e
  | .ok (Program.Expr e) => evaluate R env e
  | .ok (Program.Stmt _) => .error (.error "not a bare expression")

mutual

/-- Every `UnaryExpr` node in the tree carries `+` or `-`. -/
def unary_ok : Expression → Bool
  | .ParenExpr e => unary_ok e
  | .UnaryExpr op e => (op == OperatorType.Plus || op == OperatorType.Minus) && unary_ok e
  | .BinaryExpr _ l r => unary_ok l && unary_ok r
  | .FunctionExpr _ args => unary_ok_list args
  | .VariableExpr _ => true
  | .LiteralExpr _ => true

/-- `unary_ok` over a list of argument expressions. -/
def unary_ok_list : List Expression → Bool
  | [] => true
  | e :: es => unary_ok e && unary_ok_list es

end

/-- `unary_ok` over a whole parsed program. -/
def program_unary_ok : Program → Bool
  | .Stmt (.CommandStmt _) => true
  | .Stmt (.AssignmentStmt _ e) => unary_ok e
  | .Expr e => unary_ok e

/-- The message of the fatal-logic-error branch of
`UnaryExpression::evaluate`. -/
def unary_panic_msg : String :=
  "Parser::UnaryExression::evaluate: parser is in an invalid state."

/-- The invariant carried through the fueled parser: every successfully
parsed (sub)expression satisfies `unary_ok` (the loop cases additionally
assume it of the accumulated left operand). -/
def ParseInv (fuel : Nat) : Prop :=
  (∀ lx e lx', parse_expression fuel lx = .ok (e, lx') → unary_ok e = true) ∧
  (∀ lx e lx', parse_additive_expression fuel lx = .ok (e, lx') → unary_ok e = true) ∧
  (∀ res lx e lx', unary_ok res = true → additive_loop fuel res lx = .ok (e, lx') →
    unary_ok e = true) ∧
  (∀ lx e lx', parse_multiplicative_expression fuel lx = .ok (e, lx') → unary_ok e = true) ∧
  (∀ res lx e lx', unary_ok res = true → multiplicative_loop fuel res lx = .ok (e, lx') →
    unary_ok e = true) ∧
  (∀ lx e lx', parse_power_expression fuel lx = .ok (e, lx') → unary_ok e = true) ∧
  (∀ res lx e lx', unary_ok res = true → power_loop fuel res lx = .ok (e, lx') →
    unary_ok e = true) ∧
  (∀ lx e lx', parse_term fuel lx = .ok (e, lx') → unary_ok e = true) ∧
  (∀ lx es lx', parse_expression_list fuel lx = .ok (es, lx') → unary_ok_list es = true) ∧
  (∀ acc lx es lx', unary_ok_list acc = true → expression_list_loop fuel acc lx = .ok (es, lx') →
    unary_ok_list es = true)

mutual

/-- Every literal stored in the tree is a finite value. -/
def lits_finite : Expression → Bool
  | .ParenExpr e => lits_finite e
  | .UnaryExpr _ e => lits_finite e
  | .BinaryExpr _ l r => lits_finite l && lits_finite r
  | .FunctionExpr _ args => lits_finite_list args
  | .VariableExpr _ => true
  | .LiteralExpr val => val.isFinite

/-- `lits_finite` over a list of argument expressions. -/
def lits_finite_list : List Expression → Bool
  | [] => true
  | e :: es => lits_finite e && lits_finite_list es

end

/-- Every value bound in the environment is finite. -/
def EnvFinite (env : Env) : Prop := ∀ c v, env c = some v → v.isFinite = true

/-- The syntax tree of `"6/2(1+2)"`: `(6/2) * (1+2)`. -/
def tree_6_div_2_paren : Expression :=
  Expression.BinaryExpr OperatorType.Times
    (Expression.BinaryExpr OperatorType.DividedBy
      (Expression.LiteralExpr (FVal.num 6)) (Expression.LiteralExpr (FVal.num 2)))
    (Expression.ParenExpr
      (Expression.BinaryExpr OperatorType.Plus
        (Expression.LiteralExpr (FVal.num 1)) (Expression.LiteralExpr (FVal.num 2))))

/-- The syntax tree of `"2^3^2"`: `(2^3)^2`. -/
def tree_2_pow_3_pow_2 : Expression :=
  Expression.BinaryExpr OperatorType.Power
    (Expression.BinaryExpr OperatorType.Power
      (Expression.LiteralExpr (FVal.num 2)) (Expression.LiteralExpr (FVal.num 3)))
    (Expression.LiteralExpr (FVal.num 2))

/-- The Rust spelling of each `FunctionType` (the string each arity error
message names). -/
def rust_name : FunctionType → String
  | .Abs => "abs"
  | .ArcCos => "arccos"
  | .ArcSin => "arcsin"
  | .ArcTan => "arctan"
  | .Cos => "cos"
  | .Exp => "exp"
  | .Ln => "ln"
  | .Log => "log"
  | .Max => "max"
  | .Min => "min"
  | .Pow => "pow"
  | .Sin => "sin"
  | .Sqrt => "sqrt"
  | .Tan => "tan"

/-- The declared arity policy of each function: `some n` for an exact
required count, `none` for the variadic functions (`max`, `min`). -/
def fixed_arity : FunctionType → Option Nat
  | .Abs => some 1
  | .ArcCos => some 1
  | .ArcSin => some 1
  | .ArcTan => some 1
  | .Cos => some 1
  | .Exp => some 1
  | .Ln => some 1
  | .Log => some 1
  | .Max => none
  | .Min => none
  | .Pow => some 2
  | .Sin => some 1
  | .Sqrt => some 1
  | .Tan => some 1

/-! ## Theorems -/

/-- **C9.** For every tokenizer state, `peek_next` returns exactly the
token (or error) that the next `get_next` call returns, and leaves the
tokenizer's observable state (remaining text and current token) unchanged;
consequently a `get_next` after any interposed `peek_next` calls produces
the same result as without them. -/
theorem C9_peek_next_transparent (lx : Lexer) :
    (Lexer.peek_next lx).1 = (Lexer.get_next lx).1 ∧
    (Lexer.peek_next lx).2 = lx ∧
    Lexer.get_next (Lexer.peek_next lx).2 = Lexer.get_next lx ∧
    Lexer.peek_next (Lexer.peek_next lx).2 = Lexer.peek_next lx := by
  obtain ⟨text, current⟩ := lx
  exact ⟨rfl, rfl, rfl, rfl⟩

/-- **C2.** `"6/2(1+2)"` parses as `(6/2)*(1+2)` — the multiplicative loop
synthesizes a `Times` node when it meets a left parenthesis or a
juxtaposed variable/function token where an operator was expected — and
evaluating it in any environment returns `Ok(9.0)`. -/
theorem C2_implicit_multiplication :
    parse_line "6/2(1+2)" = .ok (Program.Expr tree_6_div_2_paren) ∧
    (∀ (R : RealFuns) (env : Env), run_expression R env "6/2(1+2)" = .ok (FVal.num 9)) ∧
    (∀ (f : Nat) (result : Expression) (lx : Lexer) (rhs : Expression) (lx' : Lexer),
      lx.current_token = Token.Operator OperatorType.LeftParen →
      parse_term f lx = .ok (rhs, lx') →
      multiplicative_loop (f + 1) result lx =
        multiplicative_loop f (Expression.BinaryExpr OperatorType.Times result rhs) lx') ∧
    (∀ (f : Nat) (result : Expression) (lx : Lexer) (v : Char) (rhs : Expression) (lx' : Lexer),
      lx.current_token = Token.Variable v →
      parse_power_expression f lx = .ok (rhs, lx') →
      multiplicative_loop (f + 1) result lx =
        multiplicative_loop f (Expression.BinaryExpr OperatorType.Times result rhs) lx') ∧
    (∀ (f : Nat) (result : Expression) (lx : Lexer) (fn : FunctionType) (rhs : Expression) (lx' : Lexer),
      lx.current_token = Token.Function fn →
      parse_power_expression f lx = .ok (rhs, lx') →
      multiplicative_loop (f + 1) result lx =
        multiplicative_loop f (Expression.BinaryExpr OperatorType.Times result rhs) lx') := by
  refine ⟨by decide, fun R env => rfl, ?_, ?_, ?_⟩
  · intro f result lx rhs lx' hcur hterm
    simp [multiplicative_loop, hcur, hterm]
  · intro f result lx v rhs lx' hcur hpow
    simp [multiplicative_loop, hcur, hpow]
  · intro f result lx fn rhs lx' hcur hpow
    simp [multiplicative_loop, hcur, hpow]

/-- Witness for C2: the implicit-multiplication loop steps applied at
concrete states. -/
theorem C2_implicit_multiplication_witness :
    multiplicative_loop 11 (Expression.LiteralExpr (FVal.num 2))
        ⟨"3)".data, Token.Operator OperatorType.LeftParen⟩ =
      multiplicative_loop 10
        (Expression.BinaryExpr OperatorType.Times (Expression.LiteralExpr (FVal.num 2))
          (Expression.ParenExpr (Expression.LiteralExpr (FVal.num 3))))
        ⟨[], Token.Eol⟩ ∧
    multiplicative_loop 11 (Expression.LiteralExpr (FVal.num 2))
        ⟨[], Token.Variable 'x'⟩ =
      multiplicative_loop 10
        (Expression.BinaryExpr OperatorType.Times (Expression.LiteralExpr (FVal.num 2))
          (Expression.VariableExpr 'x'))
        ⟨[], Token.Eol⟩ := by
  constructor
  · exact (C2_implicit_multiplication.2.2.1 10 _ _ _ _ rfl (by decide))
  · exact (C2_implicit_multiplication.2.2.2.1 10 _ _ 'x' _ _ rfl (by decide))

/-- **C4.** The `^` loop is left-associative: every single-digit chain
`a^b^c` parses with the tree grouped as `(a^b)^c`, and in particular
`"2^3^2"` parses that way and evaluates to `64.0` (not `512.0`). -/
theorem C4_power_left_associative :
    parse_line "2^3^2" = .ok (Program.Expr tree_2_pow_3_pow_2) ∧
    (∀ (R : RealFuns) (env : Env), run_expression R env "2^3^2" = .ok (FVal.num 64)) ∧
    (∀ a b c : Fin 10,
      parse [Char.ofNat (48 + a.val), '^', Char.ofNat (48 + b.val), '^', Char.ofNat (48 + c.val)] =
        .ok (Program.Expr (Expression.BinaryExpr OperatorType.Power
          (Expression.BinaryExpr OperatorType.Power
            (Expression.LiteralExpr (FVal.num ⟨a.val, 1⟩))
            (Expression.LiteralExpr (FVal.num ⟨b.val, 1⟩)))
          (Expression.LiteralExpr (FVal.num ⟨c.val, 1⟩))))) := by
  refine ⟨by decide, fun R env => rfl, by decide⟩

theorem scan_digits_append_of_all_digits (ds r : List Char)
    (h : ∀ x ∈ ds, x.isDigit = true) :
    scan_digits (ds ++ r) = ds.length + scan_digits r := by
  induction ds with
  | nil => simp
  | cons c cs ih =>
    have hc : c.isDigit = true := h c (by simp)
    have ih' := ih (fun x hx => h x (by simp [hx]))
    show (if c.isDigit = true then scan_digits (cs ++ r) + 1 else 0) = _
    rw [hc, if_pos rfl, ih']
    simp only [List.length_cons]
    omega

theorem scan_digits_cons_of_not_digit (c : Char) (r : List Char)
    (h : c.isDigit = false) : scan_digits (c :: r) = 0 := by
  simp [scan_digits, h]

/-- **C7.** Tokenizing `"13.25e2e24"` yields exactly
`Literal(1325.0), Variable('e'), Literal(24.0)`; in general, when the text
after a number's digits is `'e'` followed by a non-digit, `get_literal`
leaves the `'e'` unconsumed for a later token, and when the `'e'` is
immediately followed by a digit it consumes the whole exponent segment. -/
theorem C7_exponent_marker :
    tokenize "13.25e2e24" =
      .ok [Token.Literal (FVal.num 1325), Token.Variable 'e', Token.Literal (FVal.num 24)] ∧
    (∀ (ds : List Char) (c : Char) (rest : List Char),
      ds ≠ [] → (∀ x ∈ ds, x.isDigit = true) → c.isDigit = false →
      get_literal (ds ++ 'e' :: c :: rest) =
        .ok (Token.Literal (parse_f64 ds), 'e' :: c :: rest)) ∧
    (∀ (ds es rest : List Char),
      ds ≠ [] → (∀ x ∈ ds, x.isDigit = true) →
      es ≠ [] → (∀ x ∈ es, x.isDigit = true) →
      (∀ x ∈ rest.head?, x.isDigit = false) →
      get_literal (ds ++ 'e' :: es ++ rest) =
        .ok (Token.Literal (parse_f64 (ds ++ 'e' :: es)), rest)) := by
  refine ⟨by decide, ?_, ?_⟩
  · intro ds c rest hne hds hc
    have hd : scan_digits (ds ++ 'e' :: c :: rest) = ds.length := by
      rw [scan_digits_append_of_all_digits ds _ hds,
        scan_digits_cons_of_not_digit _ _ (by decide)]
      omega
    have hdrop : (ds ++ 'e' :: c :: rest).drop ds.length = 'e' :: c :: rest :=
      List.drop_left ds _
    have htake : (ds ++ 'e' :: c :: rest).take ds.length = ds :=
      List.take_left ds _
    simp [get_literal, hd, hdrop, htake, hc]
  · intro ds es rest hdsne hds hesne hes hrest
    obtain ⟨e1, es', rfl⟩ : ∃ e1 es', es = e1 :: es' :=
      match es, hesne with
      | x :: xs, _ => ⟨x, xs, rfl⟩
    have he1 : e1.isDigit = true := hes e1 (by simp)
    have hd : scan_digits (ds ++ 'e' :: e1 :: (es' ++ rest)) = ds.length := by
      rw [scan_digits_append_of_all_digits ds _ hds,
        scan_digits_cons_of_not_digit _ _ (by decide)]
      omega
    have hdrop : (ds ++ 'e' :: e1 :: (es' ++ rest)).drop ds.length =
        'e' :: e1 :: (es' ++ rest) :=
      List.drop_left ds _
    have hdrop1 : (ds ++ 'e' :: e1 :: (es' ++ rest)).drop (ds.length + 1) =
        e1 :: (es' ++ rest) := by
      rw [show ds ++ 'e' :: e1 :: (es' ++ rest) = (ds ++ ['e']) ++ (e1 :: (es' ++ rest)) by simp,
        show ds.length + 1 = (ds ++ ['e']).length by simp]
      exact List.drop_left _ _
    have hrest0 : scan_digits rest = 0 := by
      cases rest with
      | nil => rfl
      | cons r0 rs => exact scan_digits_cons_of_not_digit _ _ (hrest r0 (by simp))
    have hscan2 : scan_digits (e1 :: (es' ++ rest)) = es'.length + 1 := by
      have := scan_digits_append_of_all_digits (e1 :: es') rest hes
      simp only [List.cons_append] at this
      rw [this, hrest0]
      simp
    have htake : (ds ++ 'e' :: e1 :: (es' ++ rest)).take (ds.length + 1 + (es'.length + 1)) =
        ds ++ 'e' :: e1 :: es' := by
      rw [show ds.length + 1 + (es'.length + 1) = (ds ++ 'e' :: e1 :: es').length by
          simp; omega,
        show ds ++ 'e' :: e1 :: (es' ++ rest) = (ds ++ 'e' :: e1 :: es') ++ rest by simp]
      exact List.take_left _ _
    have hdropc : (ds ++ 'e' :: e1 :: (es' ++ rest)).drop (ds.length + 1 + (es'.length + 1)) =
        rest := by
      rw [show ds.length + 1 + (es'.length + 1) = (ds ++ 'e' :: e1 :: es').length by
          simp; omega,
        show ds ++ 'e' :: e1 :: (es' ++ rest) = (ds ++ 'e' :: e1 :: es') ++ rest by simp]
      exact List.drop_left _ _
    simp [get_literal, hd, hdrop, hdrop1, hscan2, he1, htake, hdropc]

/-- Witness for C7: the two `get_literal` cases applied at concrete
texts (`"13ex"`: the `e` is left unconsumed; `"4e2+"`: the exponent is
consumed). -/
theorem C7_exponent_marker_witness :
    get_literal ['1', '3', 'e', 'x'] =
      .ok (Token.Literal (parse_f64 ['1', '3']), ['e', 'x']) ∧
    get_literal ['4', 'e', '2', '+'] =
      .ok (Token.Literal (parse_f64 ['4', 'e', '2']), ['+']) := by
  constructor
  · exact C7_exponent_marker.2.1 ['1', '3'] 'x' [] (by decide) (by decide) (by decide)
  · exact C7_exponent_marker.2.2 ['4'] ['2'] ['+'] (by decide) (by decide) (by decide)
      (by decide) (by intro x hx; simp at hx; subst hx; decide)

/-- **C3.** Every binary arithmetic node and every domain-restricted
function call routes its raw result through `verify_result`, which returns
`Ok` exactly when the result is finite and otherwise the operator- or
function-specific description; concretely, `"-2 / 0"`, `"ln(0.0)"`,
`"ln(-10.0)"`, `"log(0.0)"` and `"sqrt(-1.0)"` all fail evaluation with
their specific descriptions (ordinary `Failure.error`s — none panics). -/
theorem C3_finite_or_specific_error :
    (∀ (v : FVal) (m : String),
      (v.isFinite = true → verify_result v m = .ok v) ∧
      (v.isFinite = false →
        verify_result v m = .error (.error ("evaluation error: " ++ m ++ ".")))) ∧
    (∀ (R : RealFuns) (env : Env) (l r : Expression) (lv rv : FVal),
      evaluate R env l = .ok lv → evaluate R env r = .ok rv →
      evaluate R env (Expression.BinaryExpr OperatorType.Plus l r) =
        verify_result (fadd lv rv) "arithmetic overflow during addition" ∧
      evaluate R env (Expression.BinaryExpr OperatorType.Minus l r) =
        verify_result (fsub lv rv) "arithmetic overflow during subtraction" ∧
      evaluate R env (Expression.BinaryExpr OperatorType.Times l r) =
        verify_result (fmul lv rv) "arithmetic overflow during multiplication" ∧
      evaluate R env (Expression.BinaryExpr OperatorType.DividedBy l r) =
        verify_result (fdiv lv rv) "arithmetic overflow during division" ∧
      evaluate R env (Expression.BinaryExpr OperatorType.Power l r) =
        verify_result (fpow R lv rv) "result of exponentiation is undefined") ∧
    (∀ (R : RealFuns) (env : Env) (args : List Expression) (a : FVal),
      evaluate_args R env args = .ok [a] →
      evaluate R env (Expression.FunctionExpr FunctionType.ArcCos args) =
        verify_result (facos R a) "arccos: argument must be between -1..1" ∧
      evaluate R env (Expression.FunctionExpr FunctionType.ArcSin args) =
        verify_result (fasin R a) "arcsin: argument must be between -1..1" ∧
      evaluate R env (Expression.FunctionExpr FunctionType.Exp args) =
        verify_result (fexp R a) "exp: overflow" ∧
      evaluate R env (Expression.FunctionExpr FunctionType.Ln args) =
        verify_result (fln R a) "ln: argument must be greater than zero" ∧
      evaluate R env (Expression.FunctionExpr FunctionType.Log args) =
        verify_result (flog10 R a) "log: argument must be greater than zero" ∧
      evaluate R env (Expression.FunctionExpr FunctionType.Sqrt args) =
        verify_result (fsqrt R a) "sqrt: argument must be nonnegative" ∧
      evaluate R env (Expression.FunctionExpr FunctionType.Tan args) =
        verify_result (ftan R a) "tan: result is undefined") ∧
    (∀ (R : RealFuns) (env : Env) (args : List Expression) (a b : FVal),
      evaluate_args R env args = .ok [a, b] →
      evaluate R env (Expression.FunctionExpr FunctionType.Pow args) =
        verify_result (fpow R a b) "pow: the result is undefined") ∧
    (∀ (R : RealFuns) (env : Env),
      run_expression R env "-2 / 0" =
        .error (.error "evaluation error: arithmetic overflow during division.") ∧
      run_expression R env "ln(0.0)" =
        .error (.error "evaluation error: ln: argument must be greater than zero.") ∧
      run_expression R env "ln(-10.0)" =
        .error (.error "evaluation error: ln: argument must be greater than zero.") ∧
      run_expression R env "log(0.0)" =
        .error (.error "evaluation error: log: argument must be greater than zero.") ∧
      run_expression R env "sqrt(-1.0)" =
        .error (.error "evaluation error: sqrt: argument must be nonnegative.")) := by
  refine ⟨?_, ?_, ?_, ?_, ?_⟩
  · intro v m
    constructor <;> intro h <;> simp [verify_result, h, eval_error]
  · intro R env l r lv rv hl hr
    refine ⟨?_, ?_, ?_, ?_, ?_⟩ <;> simp [evaluate, hl, hr]
  · intro R env args a hargs
    refine ⟨?_, ?_, ?_, ?_, ?_, ?_, ?_⟩ <;>
      simp [evaluate, hargs, apply_function, require_fixed_args, arg0]
  · intro R env args a b hargs
    simp [evaluate, hargs, apply_function, require_fixed_args]
  · intro R env
    exact ⟨rfl, rfl, rfl, rfl, rfl⟩

/-- Witness for C3: the general equations applied at concrete nodes and
values. -/
theorem C3_finite_or_specific_error_witness :
    verify_result (FVal.num 9) "arithmetic overflow during addition" = .ok (FVal.num 9) ∧
    verify_result FVal.nan "sqrt: argument must be nonnegative" =
      .error (.error "evaluation error: sqrt: argument must be nonnegative.") ∧
    evaluate anyRealFuns emptyEnv
        (Expression.BinaryExpr OperatorType.DividedBy
          (Expression.LiteralExpr (FVal.num 2)) (Expression.LiteralExpr (FVal.num 0))) =
      verify_result (fdiv (FVal.num 2) (FVal.num 0)) "arithmetic overflow during division" ∧
    evaluate anyRealFuns emptyEnv
        (Expression.FunctionExpr FunctionType.Ln [Expression.LiteralExpr (FVal.num 0)]) =
      verify_result (fln anyRealFuns (FVal.num 0)) "ln: argument must be greater than zero" ∧
    evaluate anyRealFuns emptyEnv
        (Expression.FunctionExpr FunctionType.Pow
          [Expression.LiteralExpr (FVal.num 0), Expression.LiteralExpr (FVal.num (-1))]) =
      verify_result (fpow anyRealFuns (FVal.num 0) (FVal.num (-1))) "pow: the result is undefined" := by
  refine ⟨?_, ?_, ?_, ?_, ?_⟩
  · exact (C3_finite_or_specific_error.1 (FVal.num 9) _).1 (by decide)
  · exact (C3_finite_or_specific_error.1 FVal.nan _).2 (by decide)
  · exact (C3_finite_or_specific_error.2.1 anyRealFuns emptyEnv
      (Expression.LiteralExpr (FVal.num 2)) (Expression.LiteralExpr (FVal.num 0))
      (FVal.num 2) (FVal.num 0) rfl rfl).2.2.2.1
  · exact (C3_finite_or_specific_error.2.2.1 anyRealFuns emptyEnv
      [Expression.LiteralExpr (FVal.num 0)] (FVal.num 0) rfl).2.2.2.1
  · exact (C3_finite_or_specific_error.2.2.2.1 anyRealFuns emptyEnv
      [Expression.LiteralExpr (FVal.num 0), Expression.LiteralExpr (FVal.num (-1))]
      (FVal.num 0) (FVal.num (-1)) rfl)

theorem require_fixed_args_of_ne (n r : Nat) (nm : String) (h : n ≠ r) :
    require_fixed_args n r nm =
      eval_error (if r = 1 then nm ++ ": single argument required, got " ++ toString n
        else nm ++ ": " ++ toString r ++ " arguments required, got " ++ toString n) := by
  unfold require_fixed_args
  rw [if_neg h]
  by_cases hr : r = 1 <;> simp [hr]

theorem require_min_args_of_lt (n r : Nat) (nm : String) (h : n < r) :
    require_min_args n r nm =
      eval_error (nm ++ ": at least " ++ toString r ++ " arguments required, got " ++ toString n) := by
  unfold require_min_args
  rw [if_neg (by omega)]

/-- **C5.** With all arguments successfully evaluated, a fixed-arity
function whose argument count differs from its required count fails with
exactly the `require_fixed_args` arity error (naming the function and the
required and actual counts), and `max`/`min` with fewer than 2 arguments
fail with the `require_min_args` error; concretely `"max(1.0)"` and
`"min(1.0)"` fail with the arity error and `"max(-1, -10, -2)"` evaluates
to `-1.0`. -/
theorem C5_arity_policy :
    (∀ (R : RealFuns) (env : Env) (f : FunctionType) (args : List Expression)
        (vals : List FVal) (r : Nat),
      evaluate_args R env args = .ok vals → fixed_arity f = some r → vals.length ≠ r →
      evaluate R env (Expression.FunctionExpr f args) =
        eval_error (if r = 1 then rust_name f ++ ": single argument required, got "
            ++ toString vals.length
          else rust_name f ++ ": " ++ toString r ++ " arguments required, got "
            ++ toString vals.length)) ∧
    (∀ (R : RealFuns) (env : Env) (f : FunctionType) (args : List Expression)
        (vals : List FVal),
      evaluate_args R env args = .ok vals → (f = .Max ∨ f = .Min) → vals.length < 2 →
      evaluate R env (Expression.FunctionExpr f args) =
        eval_error (rust_name f ++ ": at least 2 arguments required, got "
          ++ toString vals.length)) ∧
    (∀ (R : RealFuns) (env : Env),
      run_expression R env "max(1.0)" =
        .error (.error "evaluation error: max: at least 2 arguments required, got 1.") ∧
      run_expression R env "min(1.0)" =
        .error (.error "evaluation error: min: at least 2 arguments required, got 1.") ∧
      run_expression R env "max(-1, -10, -2)" = .ok (FVal.num (-1))) := by
  refine ⟨?_, ?_, ?_⟩
  · intro R env f args vals r hargs hf hne
    cases f <;> simp only [fixed_arity, Option.some.injEq, reduceCtorEq] at hf <;>
      subst hf <;>
      simp [evaluate, hargs, apply_function, require_fixed_args_of_ne _ _ _ hne, rust_name,
        eval_error]
  · intro R env f args vals hargs hf hlt
    rcases hf with rfl | rfl <;>
      simp [evaluate, hargs, apply_function, require_min_args_of_lt _ _ _ hlt, rust_name,
        eval_error] <;> rfl
  · intro R env
    exact ⟨rfl, rfl, rfl⟩

/-- Witness for C5: the arity errors applied at concrete calls. -/
theorem C5_arity_policy_witness :
    evaluate anyRealFuns emptyEnv
        (Expression.FunctionExpr FunctionType.Sqrt
          [Expression.LiteralExpr (FVal.num 1), Expression.LiteralExpr (FVal.num 1)]) =
      eval_error "sqrt: single argument required, got 2" ∧
    evaluate anyRealFuns emptyEnv
        (Expression.FunctionExpr FunctionType.Pow [Expression.LiteralExpr (FVal.num 1)]) =
      eval_error "pow: 2 arguments required, got 1" ∧
    evaluate anyRealFuns emptyEnv
        (Expression.FunctionExpr FunctionType.Max [Expression.LiteralExpr (FVal.num 1)]) =
      eval_error "max: at least 2 arguments required, got 1" := by
  refine ⟨?_, ?_, ?_⟩
  · exact C5_arity_policy.1 anyRealFuns emptyEnv FunctionType.Sqrt
      [Expression.LiteralExpr (FVal.num 1), Expression.LiteralExpr (FVal.num 1)]
      [FVal.num 1, FVal.num 1] 1 rfl rfl (by decide)
  · exact C5_arity_policy.1 anyRealFuns emptyEnv FunctionType.Pow
      [Expression.LiteralExpr (FVal.num 1)] [FVal.num 1] 2 rfl rfl (by decide)
  · exact C5_arity_policy.2.1 anyRealFuns emptyEnv FunctionType.Max
      [Expression.LiteralExpr (FVal.num 1)] [FVal.num 1] rfl (Or.inl rfl) (by decide)

/-- **C6.** The parse entry point classifies the statement from one token
of lookahead — a command keyword parses as a Command statement that must
be followed immediately by end-of-input, a variable immediately followed
by `=` parses as an Assignment whose right-hand side is a full expression
followed by end-of-input, anything else as a bare Expression — and any
token left over after the complete statement fails the parse with
"extra characters at the end of line". -/
theorem C6_statement_classification :
    (∀ (f : Nat) (lx : Lexer),
      (∀ c, lx.current_token = Token.Command c →
        parse_program (f + 1) lx = parse_command_program f lx) ∧
      (∀ v, lx.current_token = Token.Variable v →
        parse_program (f + 1) lx =
          match (Lexer.peek_next lx).1 with
          | .error e => .error e
          | .ok (Token.Operator OperatorType.Assignment) => parse_assignment_program f lx
          | .ok _ => parse_expression_program f lx) ∧
      ((∀ c, lx.current_token ≠ Token.Command c) →
       (∀ v, lx.current_token ≠ Token.Variable v) →
        parse_program (f + 1) lx = parse_expression_program f lx)) ∧
    (∀ (f : Nat) (lx : Lexer) (c : CommandType), lx.current_token = Token.Command c →
      parse_command_program (f + 1) lx =
        match Lexer.get_next lx with
        | (.error e, _) => .error e
        | (.ok _, lx1) =>
          match require_end_of_input lx1 with
          | .error e => .error e
          | .ok (_, lx2) => .ok (Program.Stmt (Statement.CommandStmt c), lx2)) ∧
    (∀ lx : Lexer, lx.current_token ≠ Token.Eol →
      require_end_of_input lx =
        .error (.error "Parse error: extra characters at the end of line.")) ∧
    (parse_line "help" = .ok (Program.Stmt (Statement.CommandStmt CommandType.Help)) ∧
     parse_line "help 1" = .error (.error "Parse error: extra characters at the end of line.") ∧
     parse_line "x = 1+2" = .ok (Program.Stmt (Statement.AssignmentStmt 'x'
       (Expression.BinaryExpr OperatorType.Plus
         (Expression.LiteralExpr (FVal.num 1)) (Expression.LiteralExpr (FVal.num 2))))) ∧
     parse_line "x = 1 2" = .error (.error "Parse error: extra characters at the end of line.") ∧
     parse_line "1 2" = .error (.error "Parse error: extra characters at the end of line.") ∧
     parse_line "x" = .ok (Program.Expr (Expression.VariableExpr 'x'))) := by
  refine ⟨?_, ?_, ?_, by decide, by decide, by decide, by decide, by decide, by decide⟩
  · intro f lx
    refine ⟨?_, ?_, ?_⟩
    · intro c hc
      simp [parse_program, hc]
    · intro v hv
      simp [parse_program, hv]
    · intro hnc hnv
      unfold parse_program
      cases htok : lx.current_token with
      | Command c => exact absurd htok (hnc c)
      | Variable v => exact absurd htok (hnv v)
      | Literal val => simp
      | Operator o => simp
      | Function fn => simp
      | Eol => simp
  · intro f lx c hc
    simp [parse_command_program, hc]
  · intro lx h
    unfold require_end_of_input
    cases htok : lx.current_token with
    | Eol => exact absurd htok h
    | Command c => simp
    | Literal val => simp
    | Operator o => simp
    | Variable v => simp
    | Function fn => simp

/-- Witness for C6: the classification equations applied at concrete
lexer states. -/
theorem C6_statement_classification_witness :
    parse_program 9 ⟨[], Token.Command CommandType.Quit⟩ =
      parse_command_program 8 ⟨[], Token.Command CommandType.Quit⟩ ∧
    parse_program 9 ⟨"= 1".data, Token.Variable 'y'⟩ =
      parse_assignment_program 8 ⟨"= 1".data, Token.Variable 'y'⟩ ∧
    parse_program 9 ⟨[], Token.Literal (FVal.num 3)⟩ =
      parse_expression_program 8 ⟨[], Token.Literal (FVal.num 3)⟩ ∧
    require_end_of_input ⟨[], Token.Literal (FVal.num 3)⟩ =
      .error (.error "Parse error: extra characters at the end of line.") := by
  refine ⟨?_, ?_, ?_, ?_⟩
  · exact (C6_statement_classification.1 8 _).1 CommandType.Quit rfl
  · exact ((C6_statement_classification.1 8 _).2.1 'y' rfl).trans (by decide)
  · exact (C6_statement_classification.1 8 _).2.2
      (fun c h => Token.noConfusion h) (fun v h => Token.noConfusion h)
  · exact C6_statement_classification.2.2.1 ⟨[], Token.Literal (FVal.num 3)⟩ (by decide)

theorem skip_whitespace_all_ascii_ws (cs : List Char)
    (h : ∀ c ∈ cs, rust_is_whitespace c = true ∧ utf8_len c = 1) :
    skip_whitespace cs = .ok [] := by
  induction cs with
  | nil => rfl
  | cons c rest ih =>
    obtain ⟨hws, hlen⟩ := h c (by simp)
    simp only [skip_whitespace, hws, hlen, if_true]
    exact ih (fun x hx => h x (by simp [hx]))

theorem parse_program_at_eol (f : Nat) :
    parse_program (f + 7) ⟨[], Token.Eol⟩ =
      .error (.error "Parse error: unexpected end of input.") := rfl

/-- **C10.** A line consisting only of one-byte (ASCII) whitespace
characters — including the empty line — parses to the "unexpected end of
input" error; but the claim's quantification over *every* whitespace-only
line fails on the code: a multi-byte whitespace character such as U+00A0
makes `skip_whitespace` slice `&text[1..]` off a character boundary, which
panics instead of returning a parse error. -/
theorem C10_whitespace_only_lines :
    (∀ cs : List Char, (∀ c ∈ cs, rust_is_whitespace c = true ∧ utf8_len c = 1) →
      parse cs = .error (.error "Parse error: unexpected end of input.")) ∧
    parse [Char.ofNat 0xA0] = .error (.panicked "byte index 1 is not a char boundary") := by
  constructor
  · intro cs h
    have hskip : skip_whitespace cs = .ok [] := skip_whitespace_all_ascii_ws cs h
    unfold parse
    simp only [Lexer.new, Lexer.get_next, hskip]
    rw [show parse_fuel cs.length = (8 * cs.length + 57) + 7 from by unfold parse_fuel; omega]
    rw [parse_program_at_eol]
  · decide

/-- Witness for C10: the whitespace-only result applied at a concrete
ASCII-whitespace line. -/
theorem C10_whitespace_only_lines_witness :
    parse " \t ".data = .error (.error "Parse error: unexpected end of input.") :=
  C10_whitespace_only_lines.1 " \t ".data (by decide)

theorem unary_ok_list_append (as bs : List Expression) :
    unary_ok_list (as ++ bs) = (unary_ok_list as && unary_ok_list bs) := by
  induction as with
  | nil => simp [unary_ok_list]
  | cons a as ih => simp [unary_ok_list, ih, Bool.and_assoc]

theorem parse_inv (fuel : Nat) : ParseInv fuel := by
  induction fuel with
  | zero =>
    refine ⟨?_, ?_, ?_, ?_, ?_, ?_, ?_, ?_, ?_, ?_⟩
    · intro lx e lx' h; exact absurd h (by simp [parse_expression])
    · intro lx e lx' h; exact absurd h (by simp [parse_additive_expression])
    · intro res lx e lx' _ h; exact absurd h (by simp [additive_loop])
    · intro lx e lx' h; exact absurd h (by simp [parse_multiplicative_expression])
    · intro res lx e lx' _ h; exact absurd h (by simp [multiplicative_loop])
    · intro lx e lx' h; exact absurd h (by simp [parse_power_expression])
    · intro res lx e lx' _ h; exact absurd h (by simp [power_loop])
    · intro lx e lx' h; exact absurd h (by simp [parse_term])
    · intro lx es lx' h; exact absurd h (by simp [parse_expression_list])
    · intro acc lx es lx' _ h; exact absurd h (by simp [expression_list_loop])
  | succ f ih =>
    obtain ⟨ihe, iha, ihal, ihm, ihml, ihp, ihpl, iht, ihel, ihll⟩ := ih
    have Hexpr : ∀ lx e lx', parse_expression (f + 1) lx = .ok (e, lx') → unary_ok e = true := by
      intro lx e lx' h
      exact iha _ _ _ h
    have Hadd : ∀ lx e lx', parse_additive_expression (f + 1) lx = .ok (e, lx') →
        unary_ok e = true := by
      intro lx e lx' h
      unfold parse_additive_expression at h
      split at h
      · exact absurd h (by simp)
      · exact ihal _ _ _ _ (ihm _ _ _ (by assumption)) h
    have Haloop : ∀ res lx e lx', unary_ok res = true → additive_loop (f + 1) res lx = .ok (e, lx') →
        unary_ok e = true := by
      intro res lx e lx' hres h
      unfold additive_loop at h
      split at h
      · split at h
        · split at h
          · exact absurd h (by simp)
          · split at h
            · exact absurd h (by simp)
            · exact ihal _ _ _ _ (by
                simp only [unary_ok, Bool.and_eq_true]
                exact ⟨hres, ihm _ _ _ (by assumption)⟩) h
        · cases h; exact hres
      · cases h; exact hres
    have Hmul : ∀ lx e lx', parse_multiplicative_expression (f + 1) lx = .ok (e, lx') →
        unary_ok e = true := by
      intro lx e lx' h
      unfold parse_multiplicative_expression at h
      split at h
      · exact absurd h (by simp)
      · exact ihml _ _ _ _ (ihp _ _ _ (by assumption)) h
    have Hmloop : ∀ res lx e lx', unary_ok res = true →
        multiplicative_loop (f + 1) res lx = .ok (e, lx') → unary_ok e = true := by
      intro res lx e lx' hres h
      unfold multiplicative_loop at h
      split at h
      · split at h
        · split at h
          · exact absurd h (by simp)
          · split at h
            · exact absurd h (by simp)
            · exact ihml _ _ _ _ (by
                simp only [unary_ok, Bool.and_eq_true]
                exact ⟨hres, ihp _ _ _ (by assumption)⟩) h
        · split at h
          · split at h
            · exact absurd h (by simp)
            · exact ihml _ _ _ _ (by
                simp only [unary_ok, Bool.and_eq_true]
                exact ⟨hres, iht _ _ _ (by assumption)⟩) h
          · cases h; exact hres
      · split at h
        · exact absurd h (by simp)
        · exact ihml _ _ _ _ (by
            simp only [unary_ok, Bool.and_eq_true]
            exact ⟨hres, ihp _ _ _ (by assumption)⟩) h
      · split at h
        · exact absurd h (by simp)
        · exact ihml _ _ _ _ (by
            simp only [unary_ok, Bool.and_eq_true]
            exact ⟨hres, ihp _ _ _ (by assumption)⟩) h
      · cases h; exact hres
    have Hpow : ∀ lx e lx', parse_power_expression (f + 1) lx = .ok (e, lx') →
        unary_ok e = true := by
      intro lx e lx' h
      unfold parse_power_expression at h
      split at h
      · exact absurd h (by simp)
      · exact ihpl _ _ _ _ (iht _ _ _ (by assumption)) h
    have Hploop : ∀ res lx e lx', unary_ok res = true → power_loop (f + 1) res lx = .ok (e, lx') →
        unary_ok e = true := by
      intro res lx e lx' hres h
      unfold power_loop at h
      split at h
      · split at h
        · exact absurd h (by simp)
        · split at h
          · exact absurd h (by simp)
          · exact ihpl _ _ _ _ (by
              simp only [unary_ok, Bool.and_eq_true]
              exact ⟨hres, iht _ _ _ (by assumption)⟩) h
      · cases h; exact hres
    have Hterm : ∀ lx e lx', parse_term (f + 1) lx = .ok (e, lx') → unary_ok e = true := by
      intro lx e lx' h
      unfold parse_term at h
      split at h
      · exact absurd h (by simp)
      · split at h
        · exact absurd h (by simp)
        · cases h; rfl
      · split at h
        · split at h
          · exact absurd h (by simp)
          · split at h
            · exact absurd h (by simp)
            · split at h
              · exact absurd h (by simp)
              · cases h
                simp only [unary_ok]
                exact ihe _ _ _ (by assumption)
        · split at h
          · rename_i hguard
            split at h
            · exact absurd h (by simp)
            · split at h
              · exact absurd h (by simp)
              · cases h
                simp only [unary_ok, Bool.and_eq_true]
                refine ⟨?_, iht _ _ _ (by assumption)⟩
                rcases hguard with rfl | rfl <;> decide
          · exact absurd h (by simp)
      · split at h
        · exact absurd h (by simp)
        · cases h; rfl
      · split at h
        · exact absurd h (by simp)
        · split at h
          · exact absurd h (by simp)
          · split at h
            · exact absurd h (by simp)
            · split at h
              · exact absurd h (by simp)
              · cases h
                simp only [unary_ok]
                exact ihel _ _ _ (by assumption)
      · exact absurd h (by simp)
    have Hel : ∀ lx es lx', parse_expression_list (f + 1) lx = .ok (es, lx') →
        unary_ok_list es = true := by
      intro lx es lx' h
      unfold parse_expression_list at h
      split at h
      · cases h; rfl
      · exact ihll [] _ _ _ rfl h
    have Hll : ∀ acc lx es lx', unary_ok_list acc = true →
        expression_list_loop (f + 1) acc lx = .ok (es, lx') → unary_ok_list es = true := by
      intro acc lx es lx' hacc h
      unfold expression_list_loop at h
      split at h
      · exact absurd h (by simp)
      · split at h
        · cases h
          rw [unary_ok_list_append]
          simp only [unary_ok_list, Bool.and_true, Bool.and_eq_true]
          exact ⟨hacc, ihe _ _ _ (by assumption)⟩
        · split at h
          · exact absurd h (by simp)
          · exact ihll _ _ _ _ (by
              rw [unary_ok_list_append]
              simp only [unary_ok_list, Bool.and_true, Bool.and_eq_true]
              exact ⟨hacc, ihe _ _ _ (by assumption)⟩) h
        · exact absurd h (by simp)
    exact ⟨Hexpr, Hadd, Haloop, Hmul, Hmloop, Hpow, Hploop, Hterm, Hel, Hll⟩

theorem parse_command_program_unary_ok (f : Nat) (lx : Lexer) (p : Program) (lx' : Lexer)
    (h : parse_command_program f lx = .ok (p, lx')) : program_unary_ok p = true := by
  unfold parse_command_program at h
  split at h
  · exact absurd h (by simp)
  · split at h
    · exact absurd h (by simp)
    · split at h
      · exact absurd h (by simp)
      · cases h; rfl
  · exact absurd h (by simp)

theorem parse_assignment_program_unary_ok (f : Nat) (lx : Lexer) (p : Program) (lx' : Lexer)
    (h : parse_assignment_program f lx = .ok (p, lx')) : program_unary_ok p = true := by
  cases f with
  | zero => exact absurd h (by simp [parse_assignment_program])
  | succ f =>
    unfold parse_assignment_program at h
    rcases hg1 : Lexer.get_next lx with ⟨r1, lx1⟩
    rw [hg1] at h
    cases r1 with
    | error e1 => simp at h
    | ok t1 =>
      cases hcur : lx.current_token <;> rw [hcur] at h <;> try simp at h
      rcases hg2 : Lexer.get_next lx1 with ⟨r2, lx2⟩
      rw [hg2] at h
      cases r2 with
      | error e2 => simp at h
      | ok t2 =>
        simp at h
        cases hpe : parse_expression f lx2 with
        | error e3 => rw [hpe] at h; simp at h
        | ok pair =>
          obtain ⟨rhs, lx3⟩ := pair
          rw [hpe] at h
          simp at h
          cases hre : require_end_of_input lx3 with
          | error e4 => rw [hre] at h; simp at h
          | ok pair2 =>
            obtain ⟨tk, lx4⟩ := pair2
            rw [hre] at h
            simp at h
            obtain ⟨h1, h2⟩ := h
            subst h1
            simp only [program_unary_ok]
            exact (parse_inv f).1 _ _ _ hpe

theorem parse_expression_program_unary_ok (f : Nat) (lx : Lexer) (p : Program) (lx' : Lexer)
    (h : parse_expression_program f lx = .ok (p, lx')) : program_unary_ok p = true := by
  unfold parse_expression_program at h
  split at h
  · exact absurd h (by simp)
  · split at h
    · exact absurd h (by simp)
    · split at h
      · exact absurd h (by simp)
      · cases h
        simp only [program_unary_ok]
        exact (parse_inv _).1 _ _ _ (by assumption)

theorem parse_program_unary_ok (f : Nat) (lx : Lexer) (p : Program) (lx' : Lexer)
    (h : parse_program f lx = .ok (p, lx')) : program_unary_ok p = true := by
  unfold parse_program at h
  split at h
  · simp at h
  · split at h
    · exact parse_command_program_unary_ok _ _ _ _ h
    · split at h
      · simp at h
      · exact parse_assignment_program_unary_ok _ _ _ _ h
      · exact parse_expression_program_unary_ok _ _ _ _ h
    · exact parse_expression_program_unary_ok _ _ _ _ h

theorem verify_result_not_panicked {v : FVal} {s m : String} :
    verify_result v s ≠ .error (.panicked m) := by
  unfold verify_result eval_error
  split <;> simp

theorem require_fixed_args_not_panicked {n r : Nat} {nm m : String} :
    require_fixed_args n r nm ≠ .error (.panicked m) := by
  unfold require_fixed_args eval_error
  split
  · simp
  · split <;> simp

theorem require_min_args_not_panicked {n r : Nat} {nm m : String} :
    require_min_args n r nm ≠ .error (.panicked m) := by
  unfold require_min_args eval_error
  split <;> simp

theorem arg0_not_unary_panic {vals : List FVal} :
    arg0 vals ≠ .error (.panicked unary_panic_msg) := by
  cases vals with
  | nil => decide
  | cons a t => simp [arg0]

theorem compute_min_not_unary_panic {vals : List FVal} :
    compute_min vals ≠ .error (.panicked unary_panic_msg) := by
  cases vals with
  | nil => decide
  | cons a t => simp [compute_min]

theorem compute_max_not_unary_panic {vals : List FVal} :
    compute_max vals ≠ .error (.panicked unary_panic_msg) := by
  cases vals with
  | nil => decide
  | cons a t => simp [compute_max]

theorem apply_function_not_unary_panic (R : RealFuns) (fn : FunctionType) (vals : List FVal) :
    apply_function R fn vals ≠ .error (.panicked unary_panic_msg) := by
  intro hc
  have hstr : "index out of bounds: the len is 0 but the index is 0" ≠ unary_panic_msg := by
    decide
  cases fn <;> simp only [apply_function] at hc <;>
    repeat
      first
        | exact Except.noConfusion hc
        | exact verify_result_not_panicked hc
        | exact compute_min_not_unary_panic hc
        | exact compute_max_not_unary_panic hc
        | (injection hc with he
           first
             | (injection he with hs; exact hstr hs)
             | (subst he
                first
                  | exact require_fixed_args_not_panicked (by assumption)
                  | exact require_min_args_not_panicked (by assumption)
                  | exact arg0_not_unary_panic (by assumption)
                  | exact compute_min_not_unary_panic (by assumption)
                  | exact compute_max_not_unary_panic (by assumption)))
        | split at hc

mutual

theorem evaluate_not_unary_panic : ∀ (e : Expression), unary_ok e = true →
    ∀ (R : RealFuns) (env : Env),
    evaluate R env e ≠ .error (.panicked unary_panic_msg)
  | .ParenExpr e, h, R, env => by
    have ih := evaluate_not_unary_panic e (by simpa [unary_ok] using h) R env
    simpa [evaluate] using ih
  | .UnaryExpr op e, h, R, env => by
    simp only [unary_ok, Bool.and_eq_true, Bool.or_eq_true, beq_iff_eq] at h
    obtain ⟨hop, hin⟩ := h
    have ih := evaluate_not_unary_panic e hin R env
    intro hc
    unfold evaluate at hc
    cases hev : evaluate R env e with
    | error err =>
      rw [hev] at hc
      simp at hc
      exact ih (by rw [hev, hc])
    | ok v =>
      rw [hev] at hc
      rcases hop with rfl | rfl <;> simp at hc
  | .BinaryExpr op l r, h, R, env => by
    simp only [unary_ok, Bool.and_eq_true] at h
    obtain ⟨hl, hr⟩ := h
    have ihl := evaluate_not_unary_panic l hl R env
    have ihr := evaluate_not_unary_panic r hr R env
    intro hc
    unfold evaluate at hc
    cases hevl : evaluate R env l with
    | error err =>
      rw [hevl] at hc
      simp at hc
      exact ihl (by rw [hevl, hc])
    | ok lv =>
      rw [hevl] at hc
      cases hevr : evaluate R env r with
      | error err =>
        rw [hevr] at hc
        simp at hc
        exact ihr (by rw [hevr, hc])
      | ok rv =>
        rw [hevr] at hc
        cases op <;> simp [unary_panic_msg] at hc <;>
          exact verify_result_not_panicked (by simpa [unary_panic_msg] using hc)
  | .FunctionExpr fn args, h, R, env => by
    simp only [unary_ok] at h
    have ih := evaluate_args_not_unary_panic args h R env
    intro hc
    unfold evaluate at hc
    cases hev : evaluate_args R env args with
    | error err =>
      rw [hev] at hc
      simp at hc
      exact ih (by rw [hev, hc])
    | ok vals =>
      rw [hev] at hc
      simp at hc
      exact apply_function_not_unary_panic R fn vals hc
  | .VariableExpr v, h, R, env => by
    intro hc
    unfold evaluate at hc
    cases henv : env v with
    | some val => rw [henv] at hc; simp at hc
    | none => rw [henv] at hc; simp [eval_error] at hc
  | .LiteralExpr val, h, R, env => by
    intro hc
    simp [evaluate] at hc

theorem evaluate_args_not_unary_panic : ∀ (es : List Expression), unary_ok_list es = true →
    ∀ (R : RealFuns) (env : Env),
    evaluate_args R env es ≠ .error (.panicked unary_panic_msg)
  | [], _, R, env => by simp [evaluate_args]
  | e :: es, h, R, env => by
    simp only [unary_ok_list, Bool.and_eq_true] at h
    obtain ⟨h1, h2⟩ := h
    have ih1 := evaluate_not_unary_panic e h1 R env
    have ih2 := evaluate_args_not_unary_panic es h2 R env
    intro hc
    unfold evaluate_args at hc
    cases hev : evaluate R env e with
    | error err =>
      rw [hev] at hc
      simp at hc
      exact ih1 (by rw [hev, hc])
    | ok v =>
      rw [hev] at hc
      cases hevs : evaluate_args R env es with
      | error err =>
        rw [hevs] at hc
        simp at hc
        exact ih2 (by rw [hevs, hc])
      | ok vs =>
        rw [hevs] at hc
        simp at hc

end

/-- **C8.** Every syntax tree produced by a successful parse has only `+`
or `-` operators in its `Unary` nodes, and evaluating any tree with that
property can never reach the fatal-logic-error (`panic!`) branch of
`UnaryExpression::evaluate`. -/
theorem C8_unary_nodes_plus_minus_only :
    (∀ (s : List Char) (p : Program), parse s = .ok p → program_unary_ok p = true) ∧
    (∀ (e : Expression), unary_ok e = true → ∀ (R : RealFuns) (env : Env),
      evaluate R env e ≠ .error (.panicked unary_panic_msg)) := by
  constructor
  · intro s p h
    unfold parse at h
    split at h
    · simp at h
    · split at h
      · simp at h
      · injection h with h1
        subst h1
        exact parse_program_unary_ok _ _ _ _ (by assumption)
  · exact fun e he R env => evaluate_not_unary_panic e he R env

/-- Witness for C8: the invariant applied to the parse of `"-2"`, and the
no-panic property applied to the resulting unary tree. -/
theorem C8_unary_nodes_plus_minus_only_witness :
    program_unary_ok (Program.Expr (Expression.UnaryExpr OperatorType.Minus
      (Expression.LiteralExpr (FVal.num 2)))) = true ∧
    evaluate anyRealFuns emptyEnv
        (Expression.UnaryExpr OperatorType.Minus (Expression.LiteralExpr (FVal.num 2))) ≠
      .error (.panicked unary_panic_msg) := by
  constructor
  · exact C8_unary_nodes_plus_minus_only.1 "-2".data
      (Program.Expr (Expression.UnaryExpr OperatorType.Minus
        (Expression.LiteralExpr (FVal.num 2)))) (by decide)
  · exact C8_unary_nodes_plus_minus_only.2
      (Expression.UnaryExpr OperatorType.Minus (Expression.LiteralExpr (FVal.num 2)))
      (by decide) anyRealFuns emptyEnv

/-- Counterexample to **C1** as stated: `"1e999"` is parseable as a
standard decimal/exponent number, but its value overflows `f64`, so the
lexer produces the non-finite literal token `+inf` (Rust's
`"1e999".parse::<f64>()` is `Ok(f64::INFINITY)`, and `get_literal` does
not reject it); parsing yields a literal tree whose evaluation returns
`Ok(+inf)` in every environment — a non-finite `Ok` value. -/
theorem C1_counterexample :
    tokenize "1e999" = .ok [Token.Literal (FVal.inf false)] ∧
    parse_line "1e999" = .ok (Program.Expr (Expression.LiteralExpr (FVal.inf false))) ∧
    evaluate anyRealFuns emptyEnv (Expression.LiteralExpr (FVal.inf false)) =
      .ok (FVal.inf false) ∧
    (FVal.inf false).isFinite = false := by
  refine ⟨by decide, by decide, rfl, rfl⟩

theorem parse_f64_shape (cs : List Char) :
    (∃ q, parse_f64 cs = FVal.num q) ∨ parse_f64 cs = FVal.inf false := by
  unfold parse_f64
  dsimp only
  split
  · exact Or.inr rfl
  · exact Or.inl ⟨_, rfl⟩

theorem get_literal_shape (text : List Char) (t : Token) (rest : List Char)
    (h : get_literal text = .ok (t, rest)) : ∃ cs, t = Token.Literal (parse_f64 cs) := by
  unfold get_literal at h
  dsimp only at h
  split at h
  · exact absurd h (by simp)
  · cases h
    exact ⟨_, rfl⟩

theorem get_operator_not_literal (text : List Char) (t : Token) (rest : List Char)
    (h : get_operator text = .ok (t, rest)) : ∀ v, t ≠ Token.Literal v := by
  unfold get_operator at h
  split at h
  · cases h; simp
  · split at h
    · cases h; simp
    · exact absurd h (by simp)

theorem get_name_not_literal (text : List Char) (t : Token) (rest : List Char)
    (h : get_name text = .ok (t, rest)) : ∀ v, t ≠ Token.Literal v := by
  unfold get_name at h
  split at h
  · cases h; simp
  · split at h
    · cases h; simp
    · split at h
      · cases h; simp
      · exact absurd h (by simp)

theorem get_next_literal_shape (lx : Lexer) (t : Token) (lx' : Lexer)
    (h : Lexer.get_next lx = (.ok t, lx')) (v : FVal) (ht : t = Token.Literal v) :
    (∃ q, v = FVal.num q) ∨ v = FVal.inf false := by
  subst ht
  unfold Lexer.get_next at h
  split at h
  · simp at h
  · simp at h
  · split at h
    · split at h
      · rename_i hlit
        simp at h
        obtain ⟨h1, _⟩ := h
        obtain ⟨cs, hcs⟩ := get_literal_shape _ _ _ hlit
        rw [h1] at hcs
        cases hcs
        rcases parse_f64_shape cs with ⟨q, hq⟩ | hq <;> rw [hq]
        · exact Or.inl ⟨q, rfl⟩
        · exact Or.inr rfl
      · simp at h
    · split at h
      · split at h
        · rename_i hop
          simp at h
          obtain ⟨h1, _⟩ := h
          exact absurd h1 (get_operator_not_literal _ _ _ hop _)
        · simp at h
      · split at h
        · split at h
          · rename_i hnm
            simp at h
            obtain ⟨h1, _⟩ := h
            exact absurd h1 (get_name_not_literal _ _ _ hnm _)
          · simp at h
        · simp at h

theorem tokenize_from_literal_shape (f : Nat) :
    ∀ (lx : Lexer) (ts : List Token), tokenize_from f lx = .ok ts →
      ∀ v, Token.Literal v ∈ ts → (∃ q, v = FVal.num q) ∨ v = FVal.inf false := by
  induction f with
  | zero =>
    intro lx ts h
    exact absurd h (by simp [tokenize_from])
  | succ f ih =>
    intro lx ts h v hmem
    unfold tokenize_from at h
    split at h
    · exact absurd h (by simp)
    · cases h
      exact absurd hmem (by simp)
    · split at h
      · cases h
        rename_i t lx1 hget hne ts' hts
        rcases List.mem_cons.mp hmem with heq | htail
        · exact get_next_literal_shape _ _ _ hget v heq.symm
        · exact ih _ _ hts v htail
      · exact absurd h (by simp)

theorem verify_result_ok_finite {x v : FVal} {m : String}
    (h : verify_result x m = .ok v) : v.isFinite = true := by
  unfold verify_result at h
  split at h
  · cases h
    assumption
  · exact absurd h (by simp [eval_error])

theorem fneg_finite {x : FVal} (h : x.isFinite = true) : (fneg x).isFinite = true := by
  cases x <;> simp_all [fneg, FVal.isFinite]

theorem fabs_finite {x : FVal} (h : x.isFinite = true) : (fabs x).isFinite = true := by
  cases x <;> simp_all [fabs, FVal.isFinite]

theorem fatan_finite (R : RealFuns) {x : FVal} (h : x.isFinite = true) :
    (fatan R x).isFinite = true := by
  cases x <;> simp_all [fatan, FVal.isFinite]

theorem fcos_finite (R : RealFuns) {x : FVal} (h : x.isFinite = true) :
    (fcos R x).isFinite = true := by
  cases x <;> simp_all [fcos, FVal.isFinite]

theorem fsin_finite (R : RealFuns) {x : FVal} (h : x.isFinite = true) :
    (fsin R x).isFinite = true := by
  cases x <;> simp_all [fsin, FVal.isFinite]

theorem fmin_finite {x y : FVal} (hx : x.isFinite = true) (hy : y.isFinite = true) :
    (fmin x y).isFinite = true := by
  cases x <;> cases y <;> simp_all [fmin, FVal.isFinite]

theorem fmax_finite {x y : FVal} (hx : x.isFinite = true) (hy : y.isFinite = true) :
    (fmax x y).isFinite = true := by
  cases x <;> cases y <;> simp_all [fmax, FVal.isFinite]

theorem foldl_fmin_finite (rest : List FVal) :
    ∀ (a : FVal), a.isFinite = true → (∀ v ∈ rest, v.isFinite = true) →
      (rest.foldl fmin a).isFinite = true := by
  induction rest with
  | nil => intro a ha _; simpa using ha
  | cons b bs ih =>
    intro a ha hall
    simp only [List.foldl_cons]
    exact ih _ (fmin_finite ha (hall b (by simp))) (fun v hv => hall v (by simp [hv]))

theorem foldl_fmax_finite (rest : List FVal) :
    ∀ (a : FVal), a.isFinite = true → (∀ v ∈ rest, v.isFinite = true) →
      (rest.foldl fmax a).isFinite = true := by
  induction rest with
  | nil => intro a ha _; simpa using ha
  | cons b bs ih =>
    intro a ha hall
    simp only [List.foldl_cons]
    exact ih _ (fmax_finite ha (hall b (by simp))) (fun v hv => hall v (by simp [hv]))

theorem arg0_mem {vals : List FVal} {a : FVal} (h : arg0 vals = .ok a) : a ∈ vals := by
  cases vals with
  | nil => exact absurd h (by simp [arg0])
  | cons b bs =>
    simp only [arg0] at h
    cases h
    simp

theorem compute_min_ok_finite {vals : List FVal} {w : FVal}
    (hall : ∀ v ∈ vals, v.isFinite = true) (h : compute_min vals = .ok w) :
    w.isFinite = true := by
  cases vals with
  | nil => exact absurd h (by simp [compute_min])
  | cons a rest =>
    simp only [compute_min] at h
    cases h
    exact foldl_fmin_finite rest a (hall a (by simp)) (fun v hv => hall v (by simp [hv]))

theorem compute_max_ok_finite {vals : List FVal} {w : FVal}
    (hall : ∀ v ∈ vals, v.isFinite = true) (h : compute_max vals = .ok w) :
    w.isFinite = true := by
  cases vals with
  | nil => exact absurd h (by simp [compute_max])
  | cons a rest =>
    simp only [compute_max] at h
    cases h
    exact foldl_fmax_finite rest a (hall a (by simp)) (fun v hv => hall v (by simp [hv]))

theorem apply_function_finite (R : RealFuns) (fn : FunctionType) (vals : List FVal)
    (hall : ∀ v ∈ vals, v.isFinite = true) (w : FVal)
    (h : apply_function R fn vals = .ok w) : w.isFinite = true := by
  cases fn <;> simp only [apply_function] at h <;> split at h <;>
    try exact absurd h (by simp)
  case Abs =>
    split at h
    · exact absurd h (by simp)
    · rename_i a ha
      cases h
      exact fabs_finite (hall a (arg0_mem ha))
  case ArcCos =>
    split at h
    · exact absurd h (by simp)
    · exact verify_result_ok_finite h
  case ArcSin =>
    split at h
    · exact absurd h (by simp)
    · exact verify_result_ok_finite h
  case ArcTan =>
    split at h
    · exact absurd h (by simp)
    · rename_i a ha
      cases h
      exact fatan_finite R (hall a (arg0_mem ha))
  case Cos =>
    split at h
    · exact absurd h (by simp)
    · rename_i a ha
      cases h
      exact fcos_finite R (hall a (arg0_mem ha))
  case Exp =>
    split at h
    · exact absurd h (by simp)
    · exact verify_result_ok_finite h
  case Ln =>
    split at h
    · exact absurd h (by simp)
    · exact verify_result_ok_finite h
  case Log =>
    split at h
    · exact absurd h (by simp)
    · exact verify_result_ok_finite h
  case Max => exact compute_max_ok_finite hall h
  case Min => exact compute_min_ok_finite hall h
  case Pow =>
    split at h
    · exact verify_result_ok_finite h
    · exact absurd h (by simp)
  case Sin =>
    split at h
    · exact absurd h (by simp)
    · rename_i a ha
      cases h
      exact fsin_finite R (hall a (arg0_mem ha))
  case Sqrt =>
    split at h
    · exact absurd h (by simp)
    · exact verify_result_ok_finite h
  case Tan =>
    split at h
    · exact absurd h (by simp)
    · exact verify_result_ok_finite h

mutual

theorem evaluate_finite : ∀ (e : Expression), lits_finite e = true →
    ∀ (R : RealFuns) (env : Env), EnvFinite env →
    ∀ (v : FVal), evaluate R env e = .ok v → v.isFinite = true
  | .ParenExpr e, h, R, env, henv, v, hev =>
    evaluate_finite e (by simpa [lits_finite] using h) R env henv v
      (by simpa [evaluate] using hev)
  | .UnaryExpr op e, h, R, env, henv, v, hev => by
    simp only [lits_finite] at h
    unfold evaluate at hev
    cases hin : evaluate R env e with
    | error err => rw [hin] at hev; simp at hev
    | ok w =>
      rw [hin] at hev
      have hw := evaluate_finite e h R env henv w hin
      cases op <;> simp at hev <;> rw [← hev]
      · exact hw
      · exact fneg_finite hw
  | .BinaryExpr op l r, h, R, env, henv, v, hev => by
    simp only [lits_finite, Bool.and_eq_true] at h
    unfold evaluate at hev
    cases hl : evaluate R env l with
    | error err => rw [hl] at hev; simp at hev
    | ok lv =>
      rw [hl] at hev
      cases hr : evaluate R env r with
      | error err => rw [hr] at hev; simp at hev
      | ok rv =>
        rw [hr] at hev
        cases op <;> simp at hev <;>
          first
            | exact verify_result_ok_finite hev
            | exact verify_result_ok_finite (by simpa using hev)
  | .FunctionExpr fn args, h, R, env, henv, v, hev => by
    simp only [lits_finite] at h
    unfold evaluate at hev
    cases hargs : evaluate_args R env args with
    | error err => rw [hargs] at hev; simp at hev
    | ok vals =>
      rw [hargs] at hev
      simp at hev
      have hall := evaluate_args_finite args h R env henv vals hargs
      exact apply_function_finite R fn vals hall v hev
  | .VariableExpr c, _, R, env, henv, v, hev => by
    unfold evaluate at hev
    cases hc : env c with
    | some val =>
      rw [hc] at hev
      simp at hev
      rw [← hev]
      exact henv c val hc
    | none => rw [hc] at hev; simp [eval_error] at hev
  | .LiteralExpr val, h, R, env, henv, v, hev => by
    simp only [lits_finite] at h
    simp only [evaluate, Except.ok.injEq] at hev
    rw [← hev]
    exact h

theorem evaluate_args_finite : ∀ (es : List Expression), lits_finite_list es = true →
    ∀ (R : RealFuns) (env : Env), EnvFinite env →
    ∀ (vals : List FVal), evaluate_args R env es = .ok vals →
    ∀ v ∈ vals, v.isFinite = true
  | [], _, R, env, henv, vals, hev => by
    simp only [evaluate_args, Except.ok.injEq] at hev
    rw [← hev]
    simp
  | e :: es, h, R, env, henv, vals, hev => by
    simp only [lits_finite_list, Bool.and_eq_true] at h
    obtain ⟨h1, h2⟩ := h
    unfold evaluate_args at hev
    cases hfirst : evaluate R env e with
    | error err => rw [hfirst] at hev; simp at hev
    | ok w =>
      rw [hfirst] at hev
      cases hrest : evaluate_args R env es with
      | error err => rw [hrest] at hev; simp at hev
      | ok ws =>
        rw [hrest] at hev
        simp at hev
        rw [← hev]
        intro v hv
        rcases List.mem_cons.mp hv with rfl | htail
        · exact evaluate_finite e h1 R env henv v hfirst
        · exact evaluate_args_finite es h2 R env henv ws hrest v htail

end

/-- **C1 (amended).** Every numeric literal token the tokenizer produces
is either a finite value or positive infinity — the latter exactly when
the decimal value overflows `f64` (such inputs, e.g. `"1e999"`, are *not*
rejected at lex time), and never NaN or negative infinity; and for every
expression tree whose literals are all finite (which includes every
parsed tree of a line without overflowing literals) and every environment
all of whose values are finite, whenever `evaluate` returns `Ok(v)` the
value `v` is finite. -/
theorem C1_finiteness_amended :
    (∀ (f : Nat) (lx : Lexer) (ts : List Token), tokenize_from f lx = .ok ts →
      ∀ v, Token.Literal v ∈ ts → (∃ q, v = FVal.num q) ∨ v = FVal.inf false) ∧
    (∀ (R : RealFuns) (env : Env), EnvFinite env →
      ∀ (e : Expression), lits_finite e = true →
      ∀ v, evaluate R env e = .ok v → v.isFinite = true) :=
  ⟨fun f lx ts h v hmem => tokenize_from_literal_shape f lx ts h v hmem,
   fun R env henv e he v hev => evaluate_finite e he R env henv v hev⟩

/-- Witness for the amended C1: the literal-token shape on the
tokenization of `"2"`, and evaluation finiteness on a concrete tree in
the empty environment. -/
theorem C1_finiteness_amended_witness :
    ((∃ q, FVal.num (2 : Q) = FVal.num q) ∨ FVal.num (2 : Q) = FVal.inf false) ∧
    (fneg (FVal.num 2)).isFinite = true := by
  constructor
  · exact C1_finiteness_amended.1 2 (Lexer.new "2".data) [Token.Literal (FVal.num 2)]
      (by decide) (FVal.num 2) (by simp)
  · exact C1_finiteness_amended.2 anyRealFuns emptyEnv
      (fun c v h => Option.noConfusion h)
      (Expression.UnaryExpr OperatorType.Minus (Expression.LiteralExpr (FVal.num 2)))
      (by decide) (fneg (FVal.num 2)) rfl

end Clicalc
